import Mathlib

/-!
Verification development for the Solomon Draft core: the draft state
machine in services/draftService.ts together with the seed codec in
utils/seedUtils.ts and the deck-list conversion in services/scryfall.ts.

JavaScript strings are modelled as lists of UTF-16 code units
(`JStr := List Nat`).  Fallible operations (TS functions that throw)
return `Except String` or `Option`.  Wall-clock and randomness inputs
(`Date.now`, `Math.random`) are external to the embedded logic: the
history-entry `id` and `timestamp` fields are omitted, and the
`Math.random` driven shuffle appears as an explicit list parameter.
-/

namespace Solomon

/-- JavaScript string: a list of UTF-16 code units. -/
abbrev JStr : Type := List Nat

/-- Conversion of a Lean string literal to its list of code units. -/
def ofString (s : String) : JStr := s.data.map Char.toNat

/-! ## Decimal printing of numbers (JS template interpolation of a number) -/

/-- Digit expansion worker; the fuel argument only bounds the recursion
depth (any fuel at least the digit count, in particular the number
itself, yields the digits). -/
def natDigsAux (fuel : Nat) (n : Nat) : List Nat :=
  match fuel with
  | 0 => []
  | f + 1 => if n = 0 then [] else natDigsAux f (n / 10) ++ [n % 10 + 48]

/-- Decimal digits (as ASCII code units) of a positive number; `[]` for zero.
Mirrors the digit expansion used when a JS number is interpolated into a
template string. -/
def natDigs (n : Nat) : List Nat := natDigsAux n n

/-- ASCII decimal representation of a natural number, as in `${n}`. -/
def natRepr (n : Nat) : JStr := if n = 0 then [48] else natDigs n

/-! ## Data model (src/types/card.ts)

Only the fields that the embedded functions read are carried:
`id`, `name` and `color_identity` for `Card`.  The remaining Scryfall
metadata fields (mana cost, images, rarity, ...) are never consulted by
the draft engine or the codec. -/

/-- A Magic card as returned by the card catalog (relevant fields). -/
structure Card where
  id : JStr
  name : JStr
  color_identity : List JStr
deriving DecidableEq

/-- A card in the draft pool together with its quantity. -/
structure CardInPool where
  card : Card
  quantity : Nat
deriving DecidableEq

/-- One of the two piles created by a split. -/
structure Pile where
  id : JStr
  cards : List CardInPool
deriving DecidableEq

/-- A dealt pack; `piles` is set once the pack has been split. -/
structure Pack where
  id : JStr
  cards : List CardInPool
  isActive : Bool
  piles : Option (List Pile) := none
deriving DecidableEq

/-- Draft settings; `poolSize = 2 * packSize * numberOfRounds`. -/
structure DraftSettings where
  packSize : Nat
  numberOfRounds : Nat
  poolSize : Nat
  seed : JStr
deriving DecidableEq

/-- The four phase strings of `currentPhase`. -/
inductive Phase where
  | P1split
  | P2choose
  | P2split
  | P1choose
deriving DecidableEq

/-- Code units of the phase string, for pack id interpolation. -/
def phaseStr : Phase → JStr
  | .P1split => ofString "P1-split"
  | .P2choose => ofString "P2-choose"
  | .P2split => ofString "P2-split"
  | .P1choose => ofString "P1-choose"

/-- The `actionType` field of a history entry. -/
inductive ActionType where
  | packDealt
  | packSplit
  | pileChosen
deriving DecidableEq

/-- The `data` payload of a history entry. -/
inductive ActionData where
  | packDealtData (packCards : List CardInPool)
  | packSplitData (piles : List Pile) (splitter : JStr)
  | pileChosenData (chosenPile : JStr) (chooser : JStr)
      (chosenCards : List CardInPool) (remainingCards : List CardInPool)
deriving DecidableEq

/-- A history entry.  The TS `id` (built from `Date.now` and
`Math.random`) and `timestamp` fields are wall-clock values external to
the state machine and are not modelled. -/
structure DraftAction where
  round : Nat
  phase : Phase
  actionType : ActionType
  data : ActionData
deriving DecidableEq

/-- Player picks: a string-keyed record of card lists, modelled as an
insertion-ordered association list exactly as a JS object iterates. -/
abbrev Picks : Type := List (JStr × List CardInPool)

/-- The whole draft state (types/draft.ts `DraftState`). -/
structure DraftState where
  settings : DraftSettings
  cardsInPool : List CardInPool
  currentRound : Nat
  currentPack : Nat
  currentPhase : Phase
  activePack : Option Pack
  p1Picks : Picks
  p2Picks : Picks
  isComplete : Bool
  history : List DraftAction
deriving DecidableEq

/-! ## Color buckets -/

/-- Code units of the bucket string for white. -/
def strW : JStr := ofString "W"

/-- Code units of the bucket string for blue. -/
def strU : JStr := ofString "U"

/-- Code units of the bucket string for black. -/
def strB : JStr := ofString "B"

/-- Code units of the bucket string for red. -/
def strR : JStr := ofString "R"

/-- Code units of the bucket string for green. -/
def strG : JStr := ofString "G"

/-- Code units of the bucket string for colorless. -/
def strC : JStr := ofString "C"

/-- Code units of the bucket string for multicolor. -/
def strM : JStr := ofString "M"

/-- Code units of the seat string for player one. -/
def strP1 : JStr := ofString "P1"

/-- Code units of the seat string for player two. -/
def strP2 : JStr := ofString "P2"

/-- The seven bucket keys created by `initializePlayerPicks`. -/
def bucketKeys : List JStr := [strW, strU, strB, strR, strG, strC, strM]

/-- DraftService.getCardColorIdentity: empty identity is colorless,
a singleton identity is that very string (`color_identity[0]`,
unchecked), anything longer is multicolor. -/
def getCardColorIdentity (card : Card) : JStr :=
  match card.color_identity with
  | [] => strC
  | [c] => c
  | _ => strM

/-- Push a card onto the bucket `key` of a picks record: if the key is
present its list grows at the end, otherwise a fresh key is appended
(JS object insertion order). -/
def pushToBucket : Picks → JStr → CardInPool → Picks
  | [], key, c => [(key, [c])]
  | entry :: rest, key, c =>
    if entry.1 = key then (entry.1, entry.2 ++ [c]) :: rest
    else entry :: pushToBucket rest key c

/-- DraftService.addCardToPlayerPicks (functional result of the in-place
push). -/
def addCardToPlayerPicks (playerPicks : Picks) (cardInPool : CardInPool) : Picks :=
  pushToBucket playerPicks (getCardColorIdentity cardInPool.card) cardInPool

/-- DraftService.initializePlayerPicks. -/
def initializePlayerPicks : Picks :=
  [(strW, []), (strU, []), (strB, []), (strR, []), (strG, []), (strC, []), (strM, [])]

/-! ## Engine operations (returned-state semantics) -/

/-- DraftService.createHistoryEntry without the unmodelled `id` and
`timestamp` fields. -/
def createHistoryEntry (actionType : ActionType) (round : Nat) (phase : Phase)
    (data : ActionData) : DraftAction :=
  { round := round, phase := phase, actionType := actionType, data := data }

/-- The interpolated pack id `pack-` round `-` phase. -/
def packIdStr (round : Nat) (phase : Phase) : JStr :=
  ofString "pack-" ++ natRepr round ++ ofString "-" ++ phaseStr phase

/-- DraftService.startRound: with fewer than `packSize` cards left the
draft is marked complete; otherwise the first `packSize` cards are
spliced off the pool into a fresh active pack and a pack-dealt entry is
appended. -/
def startRound (draft : DraftState) : DraftState :=
  if draft.cardsInPool.length < draft.settings.packSize then
    { draft with isComplete := true }
  else
    let packCards := draft.cardsInPool.take draft.settings.packSize
    let activePack : Pack :=
      { id := packIdStr draft.currentRound draft.currentPhase
        cards := packCards
        isActive := true }
    { draft with
        cardsInPool := draft.cardsInPool.drop draft.settings.packSize
        activePack := some activePack
        history := draft.history ++
          [createHistoryEntry .packDealt draft.currentRound draft.currentPhase
            (.packDealtData packCards)] }

/-- Payload of the split-pack action. -/
structure SplitData where
  piles : List Pile
deriving DecidableEq

/-- Payload of the choose-pile action. -/
structure ChooseData where
  pileId : JStr
deriving DecidableEq

/-- DraftService.splitPack: requires an active pack and exactly two
piles, whose lengths must sum to the pack size and both be nonzero; the
piles are attached, a pack-split entry appended, and the phase moves to
the matching choose phase.  Pile contents and the current phase are not
inspected beyond the splitter name. -/
def splitPack (draft : DraftState) (data : SplitData) : Except String DraftState :=
  match draft.activePack with
  | none => .error "Invalid pack split data"
  | some pack =>
    match data.piles with
    | [pile0, pile1] =>
      if pile0.cards.length + pile1.cards.length ≠ pack.cards.length then
        .error "All cards must be assigned to piles"
      else if pile0.cards.length = 0 ∨ pile1.cards.length = 0 then
        .error "Each pile must contain at least one card"
      else
        let splitter := if draft.currentPhase = .P1split then strP1 else strP2
        let nextPhase := if draft.currentPhase = .P1split then Phase.P2choose else Phase.P1choose
        .ok { draft with
                currentPhase := nextPhase
                activePack := some { pack with piles := some [pile0, pile1] }
                history := draft.history ++
                  [createHistoryEntry .packSplit draft.currentRound draft.currentPhase
                    (.packSplitData [pile0, pile1] splitter)] }
    | _ => .error "Invalid pack split data"

/-- DraftService.choosePile: resolves the chosen and the other pile,
credits the chosen cards to the choosing seat and the rest to the
opposite seat, appends a pile-chosen entry, advances phase, pack and
round, clears the active pack, and cascades into `startRound` when the
draft is not complete. -/
def choosePile (draft : DraftState) (data : ChooseData) : Except String DraftState :=
  match draft.activePack with
  | none => .error "No active pack with piles"
  | some pack =>
    match pack.piles with
    | none => .error "No active pack with piles"
    | some piles =>
      match piles.find? (fun pile => decide (pile.id = data.pileId)),
            piles.find? (fun pile => decide (pile.id ≠ data.pileId)) with
      | some chosenPile, some otherPile =>
        let chooser := if draft.currentPhase = .P1choose then strP1 else strP2
        let p1After :=
          if draft.currentPhase = .P1choose then
            chosenPile.cards.foldl addCardToPlayerPicks draft.p1Picks
          else
            otherPile.cards.foldl addCardToPlayerPicks draft.p1Picks
        let p2After :=
          if draft.currentPhase = .P1choose then
            otherPile.cards.foldl addCardToPlayerPicks draft.p2Picks
          else
            chosenPile.cards.foldl addCardToPlayerPicks draft.p2Picks
        let entry := createHistoryEntry .pileChosen draft.currentRound draft.currentPhase
          (.pileChosenData data.pileId chooser chosenPile.cards otherPile.cards)
        let nextPhase := if draft.currentPack = 1 then Phase.P2split else Phase.P1split
        let nextPack := if draft.currentPack = 1 then 2 else 1
        let nextRound := if draft.currentPack = 1 then draft.currentRound else draft.currentRound + 1
        let draftAfterChoice : DraftState :=
          { draft with
              currentPhase := nextPhase
              currentPack := nextPack
              currentRound := nextRound
              activePack := none
              p1Picks := p1After
              p2Picks := p2After
              history := draft.history ++ [entry] }
        if draftAfterChoice.isComplete = false then .ok (startRound draftAfterChoice)
        else .ok draftAfterChoice
      | _, _ => .error "Invalid pile selection"

/-- The three actions dispatched by DraftService.performDraftAction. -/
inductive ActionInput where
  | startRoundAct
  | splitPackAct (data : SplitData)
  | choosePileAct (data : ChooseData)
deriving DecidableEq

/-- DraftService.performDraftAction (the unknown-action default throw
cannot arise for the three known action constructors). -/
def performDraftAction (draft : DraftState) : ActionInput → Except String DraftState
  | .startRoundAct => .ok (startRound draft)
  | .splitPackAct data => splitPack draft data
  | .choosePileAct data => choosePile draft data

/-! ## Aliasing semantics: what the caller observes in the INPUT state
object after each operation returns.

The TS engine assembles its result on fresh objects, but two writes go
through shared structure: `startRound` removes the dealt cards from the
pool with `draft.cardsInPool.splice(0, packSize)`, mutating the array
owned by the input state, and `choosePile` copies the state shallowly
(`{ ...draft }`) so its pushes land in the pick records shared with the
input state; its cascading `startRound` then splices the shared pool
array as well.  The functions below compute the value of the input
state object after the call, line for line from those writes. -/

/-- Observed input state after `startRound` returns: in the deal branch
the pool array has lost its first `packSize` cards (splice); in the
complete branch nothing in the input is written. -/
def startRoundObservedPrior (draft : DraftState) : DraftState :=
  if draft.cardsInPool.length < draft.settings.packSize then draft
  else { draft with cardsInPool := draft.cardsInPool.drop draft.settings.packSize }

/-- Observed input state after `splitPack` returns: every branch either
throws before any write or assembles fresh objects, so the input is
never written. -/
def splitPackObservedPrior (draft : DraftState) (_data : SplitData) : DraftState :=
  draft

/-- Observed input state after `choosePile` returns: on the failure
branches nothing has been written; on success both pick records have
been pushed to through the shallow copy, and the cascaded `startRound`
(entered when the draft is not complete) splices the shared pool array
when a full pack remains. -/
def choosePileObservedPrior (draft : DraftState) (data : ChooseData) : DraftState :=
  match draft.activePack with
  | none => draft
  | some pack =>
    match pack.piles with
    | none => draft
    | some piles =>
      match piles.find? (fun pile => decide (pile.id = data.pileId)),
            piles.find? (fun pile => decide (pile.id ≠ data.pileId)) with
      | some chosenPile, some otherPile =>
        let p1After :=
          if draft.currentPhase = .P1choose then
            chosenPile.cards.foldl addCardToPlayerPicks draft.p1Picks
          else
            otherPile.cards.foldl addCardToPlayerPicks draft.p1Picks
        let p2After :=
          if draft.currentPhase = .P1choose then
            otherPile.cards.foldl addCardToPlayerPicks draft.p2Picks
          else
            chosenPile.cards.foldl addCardToPlayerPicks draft.p2Picks
        let poolAfter :=
          if draft.isComplete = false ∧
             ¬ draft.cardsInPool.length < draft.settings.packSize then
            draft.cardsInPool.drop draft.settings.packSize
          else draft.cardsInPool
        { draft with p1Picks := p1After, p2Picks := p2After, cardsInPool := poolAfter }
      | _, _ => draft

/-! ## Basic facts about the operations -/

/-- Number of cards stored across all buckets of a picks record. -/
def picksCount (p : Picks) : Nat := (p.map (fun e => e.2.length)).sum

/-- A pick record holds a card with the given id somewhere. -/
def idInPicks (p : Picks) (cid : JStr) : Prop :=
  ∃ e ∈ p, ∃ c ∈ e.2, c.card.id = cid

instance (p : Picks) (cid : JStr) : Decidable (idInPicks p cid) := by
  unfold idInPicks; infer_instance

/-- A pile holds a card with the given id. -/
def pileHasId (p : Pile) (cid : JStr) : Prop :=
  ∃ c ∈ p.cards, c.card.id = cid

instance (p : Pile) (cid : JStr) : Decidable (pileHasId p cid) := by
  unfold pileHasId; infer_instance

/-- Number of pack-dealt entries in a history. -/
def packDealtCount (h : List DraftAction) : Nat :=
  (h.filter (fun a => decide (a.actionType = .packDealt))).length

/-- The draft-after-choice record built inside `choosePile` before the
cascade; names the success shape so theorems can talk about it. -/
def afterChoice (d : DraftState) (data : ChooseData) (chosenPile otherPile : Pile) : DraftState :=
  { d with
      currentPhase := if d.currentPack = 1 then Phase.P2split else Phase.P1split
      currentPack := if d.currentPack = 1 then 2 else 1
      currentRound := if d.currentPack = 1 then d.currentRound else d.currentRound + 1
      activePack := none
      p1Picks := if d.currentPhase = .P1choose then
          chosenPile.cards.foldl addCardToPlayerPicks d.p1Picks
        else otherPile.cards.foldl addCardToPlayerPicks d.p1Picks
      p2Picks := if d.currentPhase = .P1choose then
          otherPile.cards.foldl addCardToPlayerPicks d.p2Picks
        else chosenPile.cards.foldl addCardToPlayerPicks d.p2Picks
      history := d.history ++
        [createHistoryEntry .pileChosen d.currentRound d.currentPhase
          (.pileChosenData data.pileId
            (if d.currentPhase = .P1choose then strP1 else strP2)
            chosenPile.cards otherPile.cards)] }

/-! ## Concrete fixtures used by witnesses and counterexamples -/

/-- A white test card. -/
def cardA : Card := { id := ofString "idA", name := ofString "A", color_identity := [strW] }

/-- A colorless test card. -/
def cardB : Card := { id := ofString "idB", name := ofString "B", color_identity := [] }

/-- A multicolor test card. -/
def cardC : Card := { id := ofString "idC", name := ofString "C", color_identity := [strU, strR] }

/-- A blue test card. -/
def cardD : Card := { id := ofString "idD", name := ofString "D", color_identity := [strU] }

/-- Pool entry for `cardA`. -/
def cipA : CardInPool := { card := cardA, quantity := 1 }

/-- Pool entry for `cardB`. -/
def cipB : CardInPool := { card := cardB, quantity := 1 }

/-- Pool entry for `cardC`. -/
def cipC : CardInPool := { card := cardC, quantity := 1 }

/-- Pool entry for `cardD`. -/
def cipD : CardInPool := { card := cardD, quantity := 1 }

/-- Settings with two-card packs and one round. -/
def settings2 : DraftSettings :=
  { packSize := 2, numberOfRounds := 1, poolSize := 4, seed := [] }

/-- A dealt, not yet split pack holding cards A and B. -/
def packAB : Pack :=
  { id := packIdStr 1 .P1split, cards := [cipA, cipB], isActive := true }

/-- A state in the first split phase with `packAB` dealt and cards C, D
still in the pool. -/
def stSplit : DraftState :=
  { settings := settings2
    cardsInPool := [cipC, cipD]
    currentRound := 1
    currentPack := 1
    currentPhase := .P1split
    activePack := some packAB
    p1Picks := initializePlayerPicks
    p2Picks := initializePlayerPicks
    isComplete := false
    history := [] }

/-- A pile holding only card A. -/
def pileA : Pile := { id := ofString "pile-x", cards := [cipA] }

/-- A second pile also holding card A (duplicating A, omitting B). -/
def pileA2 : Pile := { id := ofString "pile-y", cards := [cipA] }

/-- A pile holding only card B. -/
def pileB : Pile := { id := ofString "pile-y", cards := [cipB] }

/-- A pile holding both pack cards. -/
def pileAB : Pile := { id := ofString "pile-x", cards := [cipA, cipB] }

/-- An empty pile. -/
def pileEmpty : Pile := { id := ofString "pile-y", cards := [] }

/-- The pack A/B already split into the piles A and B. -/
def packABSplit : Pack :=
  { id := packIdStr 1 .P1split, cards := [cipA, cipB], isActive := true
    piles := some [pileA, pileB] }

/-- A state in the P2 choose phase whose active pack is already split. -/
def stChoose : DraftState :=
  { stSplit with currentPhase := .P2choose, activePack := some packABSplit }

/-! ## C10: color bucket resolution -/

/-- A card whose singleton color identity is not one of the five color
letters; the TS type allows any string array here. -/
def cardX : Card :=
  { id := ofString "idX", name := ofString "X", color_identity := [ofString "X"] }

/-! ## C3: caller-visible mutation of the input state -/

/-- A state with a one-card packs setting and two cards in the pool,
ready for a deal. -/
def stDeal : DraftState :=
  { settings := { packSize := 1, numberOfRounds := 1, poolSize := 2, seed := [] }
    cardsInPool := [cipA, cipB]
    currentRound := 1
    currentPack := 1
    currentPhase := .P1split
    activePack := none
    p1Picks := initializePlayerPicks
    p2Picks := initializePlayerPicks
    isComplete := false
    history := [] }

/-- The pack A/B split into two piles that both hold card A. -/
def packABDup : Pack :=
  { id := packIdStr 1 .P1split, cards := [cipA, cipB], isActive := true
    piles := some [pileA, pileA2] }

/-- A choose-phase state whose active pack was split into duplicated
piles (accepted by `splitPack`, which checks only counts). -/
def stChooseDup : DraftState :=
  { stSplit with currentPhase := .P2choose, activePack := some packABDup }

/-- Total function giving the success state of an engine call, with a
default for the error case; used to name concrete trajectory states. -/
def okOr (x : Except String DraftState) (dft : DraftState) : DraftState :=
  match x with
  | .ok s => s
  | .error _ => dft

/-- The choose input naming the SECOND pile of the split attached to
`stChoose` (pile id `pile-y`). -/
def chooseY : ChooseData := { pileId := ofString "pile-y" }

/-- Success state of that second-pile choose. -/
def resChooseY : DraftState := okOr (choosePile stChoose chooseY) stChoose

/-- Pile holding only card C. -/
def pileC : Pile := { id := ofString "pile-c", cards := [cipC] }

/-- Pile holding only card D. -/
def pileD : Pile := { id := ofString "pile-d", cards := [cipD] }

/-- State after the first split of the witness round. -/
def w1 : DraftState := okOr (splitPack stSplit ⟨[pileA, pileB]⟩) stSplit

/-- State after the first choose of the witness round. -/
def w2 : DraftState := okOr (choosePile w1 ⟨ofString "pile-x"⟩) stSplit

/-- State after the second split of the witness round. -/
def w3 : DraftState := okOr (splitPack w2 ⟨[pileC, pileD]⟩) stSplit

/-- State after the second choose of the witness round. -/
def w4 : DraftState := okOr (choosePile w3 ⟨ofString "pile-c"⟩) stSplit

/-! ## C8: the completion flag over whole executions -/

/-- States reachable from a start state through accepted engine
actions. -/
inductive ReachableFrom : DraftState → DraftState → Prop where
  | refl (s : DraftState) : ReachableFrom s s
  | step {s d d' : DraftState} (a : ActionInput) :
      ReachableFrom s d → performDraftAction d a = .ok d' → ReachableFrom s d'

/-- Invariant: a complete state has fewer than `packSize` cards left. -/
def completeShort (d : DraftState) : Prop :=
  d.isComplete = true → d.cardsInPool.length < d.settings.packSize

/-- A not-complete state with an empty pool and one-card packs. -/
def stEmptyPool : DraftState := { stDeal with cardsInPool := [] }

/-- The state reached by attempting a deal on the empty pool: complete,
nothing dealt. -/
def stCompleted : DraftState := startRound stEmptyPool

/-! ## Seed codec (utils/seedUtils.ts)

`hashCardOrder` is `btoa(xorEncrypt(JSON.stringify(cardData), KEY))` and
`dehashCardOrder` is `JSON.parse(xorDecrypt(atob(seed), KEY))` with
`xorDecrypt = xorEncrypt` (XOR is symmetric).  `btoa` throws an
InvalidCharacterError on code units above 255, modelled as `none`.
`JSON.stringify` is modelled without the ES2019 lone-surrogate
escaping; all theorems below stay in the sub-255 range where the two
behaviours coincide.  `JSON.parse` is modelled on the whitespace-free
grammar that `JSON.stringify` emits for `CardData` arrays, which is the
only grammar the round-trip properties exercise. -/

/-- The name/quantity pair stored in a seed. -/
structure CardData where
  name : JStr
  quantity : Nat
deriving DecidableEq

/-- Projection of a pool entry to its seed payload. -/
def toCardData (c : CardInPool) : CardData :=
  { name := c.card.name, quantity := c.quantity }

/-- Value of a digit list as read back by the number grammar. -/
def digsToNat (ds : List Nat) : Nat :=
  ds.foldl (fun acc c => 10 * acc + (c - 48)) 0

/-- Lower-case hex digit of a value below 16. -/
def hexDig (v : Nat) : Nat := if v < 10 then 48 + v else 87 + v

/-- Value of a hex digit character (either case), as JSON.parse reads it. -/
def hexVal (c : Nat) : Option Nat :=
  if 48 ≤ c ∧ c ≤ 57 then some (c - 48)
  else if 97 ≤ c ∧ c ≤ 102 then some (c - 87)
  else if 65 ≤ c ∧ c ≤ 70 then some (c - 55)
  else none

/-- JSON.stringify escape of one code unit inside a string literal:
quote and backslash get a backslash, the five short control escapes are
used where they exist, other control characters become a hex escape,
everything else is emitted raw. -/
def escChar (c : Nat) : List Nat :=
  if c = 34 then [92, 34]
  else if c = 92 then [92, 92]
  else if c = 8 then [92, 98]
  else if c = 9 then [92, 116]
  else if c = 10 then [92, 110]
  else if c = 12 then [92, 102]
  else if c = 13 then [92, 114]
  else if c < 32 then [92, 117, 48, 48, hexDig (c / 16), hexDig (c % 16)]
  else [c]

/-- Escaped body of a JSON string literal. -/
def escStr (s : JStr) : JStr := (s.map escChar).flatten

/-- A quoted JSON string literal. -/
def quoteStr (s : JStr) : JStr := [34] ++ escStr s ++ [34]

/-- One serialized array element: an object literal with the keys
`name` (110 97 109 101) and `quantity` (113 117 97 110 116 105 116 121)
in that order, no whitespace (91 = left bracket, 123/125 = braces,
34 = quote, 58 = colon, 44 = comma). -/
def stringifyItem (cd : CardData) : JStr :=
  [123, 34, 110, 97, 109, 101, 34, 58] ++ quoteStr cd.name ++
    [44, 34, 113, 117, 97, 110, 116, 105, 116, 121, 34, 58] ++
    natRepr cd.quantity ++ [125]

/-- Comma-separated join. -/
def joinSep (sep : JStr) : List JStr → JStr
  | [] => []
  | [x] => x
  | x :: xs => x ++ sep ++ joinSep sep xs

/-- JSON.stringify of the card-data array. -/
def stringifyCardData (l : List CardData) : JStr :=
  [91] ++ joinSep [44] (l.map stringifyItem) ++ [93]

/-- Decoding of a one-character JSON escape (the escapes JSON.parse
accepts besides the hex form). -/
def unescape (e : Nat) : Option Nat :=
  if e = 34 then some 34
  else if e = 92 then some 92
  else if e = 47 then some 47
  else if e = 98 then some 8
  else if e = 102 then some 12
  else if e = 110 then some 10
  else if e = 114 then some 13
  else if e = 116 then some 9
  else none

/-- Four hex digits of a JSON hex escape and the remaining input. -/
def take4hex : JStr → Option (Nat × JStr)
  | h1 :: h2 :: h3 :: h4 :: r2 =>
    match hexVal h1, hexVal h2, hexVal h3, hexVal h4 with
    | some v1, some v2, some v3, some v4 =>
      some ((((v1 * 16 + v2) * 16 + v3) * 16 + v4), r2)
    | _, _, _, _ => none
  | _ => none

/-- JSON string-literal body parser: input starts after the opening
quote, stops at the unescaped closing quote, decodes the escapes that
JSON.parse accepts, rejects raw control characters.  The fuel only
bounds the recursion depth; any fuel above the content length works. -/
def parseJString : Nat → JStr → Option (JStr × JStr)
  | 0, _ => none
  | _ + 1, [] => none
  | fuel + 1, c :: rest =>
    if c = 34 then some ([], rest)
    else if c = 92 then
      match rest with
      | [] => none
      | e :: r =>
        if e = 117 then
          match take4hex r with
          | some vr => (parseJString fuel vr.2).map (fun p => (vr.1 :: p.1, p.2))
          | none => none
        else
          match unescape e with
          | some d => (parseJString fuel r).map (fun p => (d :: p.1, p.2))
          | none => none
    else if c < 32 then none
    else (parseJString fuel rest).map (fun p => (c :: p.1, p.2))

/-- Digit character test. -/
def isDigitCode (c : Nat) : Bool := decide (48 ≤ c ∧ c ≤ 57)

/-- Nonnegative-integer number parser (the only number shape the
stringifier emits). -/
def parseNumber (s : JStr) : Option (Nat × JStr) :=
  let ds := s.takeWhile isDigitCode
  if ds = [] then none else some (digsToNat ds, s.dropWhile isDigitCode)

/-- Consume an expected literal. -/
def expects : JStr → JStr → Option JStr
  | [], s => some s
  | p :: ps, c :: cs => if c = p then expects ps cs else none
  | _ :: _, [] => none

/-- Parse one object of the array. -/
def parseItem (s : JStr) : Option (CardData × JStr) := do
  let s ← expects [123, 34, 110, 97, 109, 101, 34, 58, 34] s
  let (name, s) ← parseJString (s.length + 1) s
  let s ← expects [44, 34, 113, 117, 97, 110, 116, 105, 116, 121, 34, 58] s
  let (q, s) ← parseNumber s
  let s ← expects [125] s
  some (⟨name, q⟩, s)

/-- Parse one or more comma-separated objects up to the closing
bracket; the fuel bounds the item count. -/
def parseItems : Nat → JStr → Option (List CardData × JStr)
  | 0, _ => none
  | fuel + 1, s =>
    match parseItem s with
    | none => none
    | some (cd, s2) =>
      match s2 with
      | [] => none
      | c :: rest =>
        if c = 44 then (parseItems fuel rest).map (fun p => (cd :: p.1, p.2))
        else if c = 93 then some ([cd], rest)
        else none

/-- JSON.parse of a whole card-data array; the entire input must be
consumed. -/
def parseCardList (s : JStr) : Option (List CardData) :=
  match s with
  | [] => none
  | c :: rest =>
    if c = 91 then
      if rest = [93] then some []
      else
        match parseItems (rest.length + 1) rest with
        | some lr => if lr.2 = [] then some lr.1 else none
        | none => none
    else none

/-- XOR worker carrying the running character index. -/
def xorWithKey (key : List Nat) : Nat → JStr → JStr
  | _, [] => []
  | i, c :: rest => (c ^^^ key.getD (i % key.length) 0) :: xorWithKey key (i + 1) rest

/-- seedUtils xorEncrypt: character-wise XOR against the cycled key
(`xorDecrypt` is the same function, XOR being symmetric). -/
def xorEncrypt (text key : JStr) : JStr := xorWithKey key 0 text

/-- Base64 alphabet character of a sextet. -/
def b64chr (v : Nat) : Nat :=
  if v < 26 then 65 + v
  else if v < 52 then 97 + (v - 26)
  else if v < 62 then 48 + (v - 52)
  else if v = 62 then 43
  else 47

/-- Value of a base64 alphabet character. -/
def b64val (c : Nat) : Option Nat :=
  if 65 ≤ c ∧ c ≤ 90 then some (c - 65)
  else if 97 ≤ c ∧ c ≤ 122 then some (c - 97 + 26)
  else if 48 ≤ c ∧ c ≤ 57 then some (c - 48 + 52)
  else if c = 43 then some 62
  else if c = 47 then some 63
  else none

/-- Base64 encoding of a byte list, with `=` (61) padding. -/
def b64encodeBytes : List Nat → List Nat
  | a :: b :: c :: rest =>
    b64chr (a / 4) :: b64chr ((a % 4) * 16 + b / 16) :: b64chr ((b % 16) * 4 + c / 64)
      :: b64chr (c % 64) :: b64encodeBytes rest
  | [a, b] => [b64chr (a / 4), b64chr ((a % 4) * 16 + b / 16), b64chr ((b % 16) * 4), 61]
  | [a] => [b64chr (a / 4), b64chr ((a % 4) * 16), 61, 61]
  | [] => []

/-- Base64 decoding of padded four-character groups. -/
def b64decodeChars : List Nat → Option (List Nat)
  | [] => some []
  | c1 :: c2 :: c3 :: c4 :: rest => do
    let v1 ← b64val c1
    let v2 ← b64val c2
    if c3 = 61 then
      if c4 = 61 ∧ rest = [] then some [v1 * 4 + v2 / 16] else none
    else do
      let v3 ← b64val c3
      if c4 = 61 then
        if rest = [] then some [v1 * 4 + v2 / 16, (v2 % 16) * 16 + v3 / 4] else none
      else do
        let v4 ← b64val c4
        let tail ← b64decodeChars rest
        some ((v1 * 4 + v2 / 16) :: ((v2 % 16) * 16 + v3 / 4) :: ((v3 % 4) * 64 + v4) :: tail)
  | _ => none

/-- btoa: base64 of the code units, throwing (none) as soon as one
exceeds 255. -/
def btoa (s : JStr) : Option JStr :=
  if s.all (fun c => decide (c < 256)) then some (b64encodeBytes s) else none

/-- atob on the padded output shape that btoa produces. -/
def atob (s : JStr) : Option JStr := b64decodeChars s

/-- The hardcoded obfuscation key of seedUtils. -/
def HASH_KEY : JStr := ofString "SolomonDraft2024!@#"

/-- seedUtils hashCardOrder: project to name/quantity, stringify, XOR
with the key, base64; `none` when btoa rejects a code unit. -/
def hashCardOrder (cardOrder : List CardInPool) : Option JStr :=
  let cardData := cardOrder.map toCardData
  let dataString := stringifyCardData cardData
  let obfuscated := xorEncrypt dataString HASH_KEY
  btoa obfuscated

/-- seedUtils dehashCardOrder: un-base64, XOR with the key, parse. -/
def dehashCardOrder (seed : JStr) : Option (List CardData) :=
  match atob seed with
  | none => none
  | some obfuscated => parseCardList (xorEncrypt obfuscated HASH_KEY)

/-! ## C1: the seed round trip -/

/-- A card whose name contains an em-dash (code unit 8212, outside
Latin-1). -/
def cardDash : Card := { id := ofString "dash", name := [8212], color_identity := [] }

/-- A card whose name mixes punctuation, a quote, a backslash and the
Latin-1 non-ASCII letter with code 198. -/
def cardFancy : Card :=
  { id := ofString "fancy", name := ofString "Æther, \"Bolt\"\\!", color_identity := [strU] }

/-! ## C4: the seed stored by createDraft decodes to the pool -/

/-- DraftService.createDraft (the draftService version wired to
seedUtils, used by App via createSeededDraft).  The Math.random driven
`shuffleArray` call is an external source of randomness; its output
list is the parameter, and the length check matches the one the code
performs on the unshuffled deck list, whose length a permutation
preserves.  A btoa InvalidCharacterError thrown inside hashCardOrder
propagates out, modelled as an error. -/
def createDraft (shuffledCards : List CardInPool) (packSize numberOfRounds : Nat) :
    Except String DraftState :=
  let poolSize := 2 * packSize * numberOfRounds
  if shuffledCards.length < poolSize then
    .error "Not enough cards in deck list"
  else
    let cardsInPool := shuffledCards.take poolSize
    match hashCardOrder cardsInPool with
    | none => .error "InvalidCharacterError"
    | some seed =>
      .ok { settings :=
              { packSize := packSize, numberOfRounds := numberOfRounds
                poolSize := poolSize, seed := seed }
            cardsInPool := cardsInPool
            currentRound := 1
            currentPack := 1
            currentPhase := .P1split
            activePack := none
            p1Picks := initializePlayerPicks
            p2Picks := initializePlayerPicks
            isComplete := false
            history := [] }

/-! ## Deck-list round trip (App seeded flow)

createSeededDraft (part_016) turns the decoded seed entries back into a
deck-list string with one `quantity name` line per entry, has the
Scryfall service convert that string into pool entries, and builds the
draft from the result.  ScryfallService.convertDeckListToCards
(part_015) splits the string on newlines, matches each line against the
regex digits-whitespace-rest, resolves the names over the network, and
maps entries through a name-keyed Map with fallback matching.  The
network lookup appears as the resolve oracle: searchCards returns, in
request order, the cards found for the requested names and skips
failures. -/

/-- Whitespace class of JS (the regex class and trim), by code unit. -/
def jsIsSpace (c : Nat) : Bool :=
  decide (c = 9 ∨ c = 10 ∨ c = 11 ∨ c = 12 ∨ c = 13 ∨ c = 32 ∨ c = 160 ∨ c = 5760 ∨
    (8192 ≤ c ∧ c ≤ 8202) ∨ c = 8232 ∨ c = 8233 ∨ c = 8239 ∨ c = 8287 ∨ c = 12288 ∨ c = 65279)

/-- Line terminators, which the regex dot refuses to match. -/
def isLineTerm (c : Nat) : Bool := decide (c = 10 ∨ c = 13 ∨ c = 8232 ∨ c = 8233)

/-- String.prototype.trim: strip whitespace from both ends. -/
def jsTrim (s : JStr) : JStr :=
  ((s.dropWhile jsIsSpace).reverse.dropWhile jsIsSpace).reverse

/-- String.prototype.split on the newline character (code 10). -/
def splitNl : JStr → List JStr
  | [] => [[]]
  | c :: rest =>
    if c = 10 then [] :: splitNl rest
    else
      match splitNl rest with
      | [] => [[c]]
      | l :: ls => (c :: l) :: ls

/-- The deck-list line of one seed entry: quantity, one space, name. -/
def deckLine (cd : CardData) : JStr := natRepr cd.quantity ++ 32 :: cd.name

/-- The line regex digits-whitespace-rest with the trailing trim of the
name group, modelled on lines whose maximal digit and whitespace spans
are followed by a terminator-free nonempty remainder (the shape of
every line the seeded flow builds; regex backtracking over the
whitespace span for other inputs is not modelled). -/
def parseLine (line : JStr) : Option (Nat × JStr) :=
  if line.takeWhile isDigitCode = [] ∨
     ((line.dropWhile isDigitCode).takeWhile jsIsSpace) = [] ∨
     ((line.dropWhile isDigitCode).dropWhile jsIsSpace) = [] ∨
     ((line.dropWhile isDigitCode).dropWhile jsIsSpace).any isLineTerm then none
  else
    some (digsToNat (line.takeWhile isDigitCode),
      jsTrim ((line.dropWhile isDigitCode).dropWhile jsIsSpace))

/-- ASCII fragment of String.prototype.toLowerCase (card names in the
fallback comparisons). -/
def jsToLower (s : JStr) : JStr :=
  s.map (fun c => if 65 ≤ c ∧ c ≤ 90 then c + 32 else c)

/-- Membership in the regex word-or-space class kept by the
punctuation-stripping fallback. -/
def isWordOrSpace (c : Nat) : Bool :=
  decide ((48 ≤ c ∧ c ≤ 57) ∨ (65 ≤ c ∧ c ≤ 90) ∨ (97 ≤ c ∧ c ≤ 122) ∨ c = 95) || jsIsSpace c

/-- The normalization of the punctuation fallback: lowercase, then drop
everything outside word characters and whitespace. -/
def normName (s : JStr) : JStr := (jsToLower s).filter isWordOrSpace

/-- One Map.set step: overwrite the value in place when the key exists,
append a fresh entry otherwise. -/
def mapInsert (m : List (JStr × Card)) (k : JStr) (v : Card) : List (JStr × Card) :=
  if m.any (fun e => decide (e.1 = k)) then
    m.map (fun e => if e.1 = k then (k, v) else e)
  else m ++ [(k, v)]

/-- The Map built from the found cards, keyed by card name. -/
def cardMapOf (cards : List Card) : List (JStr × Card) :=
  cards.foldl (fun m c => mapInsert m c.name c) []

/-- Map.prototype.get. -/
def mapGet (m : List (JStr × Card)) (k : JStr) : Option Card :=
  (m.find? (fun e => decide (e.1 = k))).map (fun e => e.2)

/-- The name lookup of convertDeckListToCards: exact Map hit first,
then the first case-insensitive, punctuation-normalized and prefix
matches over the Map entries in insertion order. -/
def lookupCard (m : List (JStr × Card)) (name : JStr) : Option Card :=
  match mapGet m name with
  | some c => some c
  | none =>
    match (m.find? (fun e => decide (jsToLower e.1 = jsToLower name))).map (fun e => e.2) with
    | some c => some c
    | none =>
      match (m.find? (fun e => decide (normName e.1 = normName name))).map (fun e => e.2) with
      | some c => some c
      | none =>
        (m.find? (fun e => (jsToLower name).isPrefixOf (jsToLower e.1))).map (fun e => e.2)

/-- ScryfallService.convertDeckListToCards over the resolve oracle:
split into lines, keep the nonblank ones, parse each line, fetch the
cards for the parsed names in order (failures skipped), then map every
entry through the name lookup, dropping entries without a match. -/
def convertDeckListToCards (resolve : JStr → Option Card) (deckList : JStr) :
    List CardInPool :=
  let lines := (splitNl deckList).filter (fun l => !(jsTrim l).isEmpty)
  let cardEntries := lines.filterMap parseLine
  let cardNames := cardEntries.map (fun e => e.2)
  let cards := cardNames.filterMap resolve
  let cardMap := cardMapOf cards
  cardEntries.filterMap (fun e =>
    match lookupCard cardMap e.2 with
    | some card => some { card := card, quantity := e.1 }
    | none => none)

/-- DraftService.createDraftWithCards: truncate the reconstructed order
to the pool size, re-encode the seed, and build the initial state. -/
def createDraftWithCards (cardsInPool : List CardInPool)
    (packSize numberOfRounds : Nat) : Except String DraftState :=
  let poolSize := 2 * packSize * numberOfRounds
  if cardsInPool.length < poolSize then
    .error "Not enough cards in seed"
  else
    let draftCards := cardsInPool.take poolSize
    match hashCardOrder draftCards with
    | none => .error "InvalidCharacterError"
    | some seed =>
      .ok { settings :=
              { packSize := packSize, numberOfRounds := numberOfRounds
                poolSize := poolSize, seed := seed }
            cardsInPool := draftCards
            currentRound := 1
            currentPack := 1
            currentPhase := .P1split
            activePack := none
            p1Picks := initializePlayerPicks
            p2Picks := initializePlayerPicks
            isComplete := false
            history := [] }

/-- DraftService.createSeededDraft: decode the seed, rebuild the deck
list, convert it through the catalog, and build the draft from the
reconstructed order. -/
def createSeededDraft (resolve : JStr → Option Card) (seed : JStr)
    (packSize numberOfRounds : Nat) : Except String DraftState :=
  match dehashCardOrder seed with
  | none => .error "Failed to create seeded draft"
  | some cardData =>
    let deckList := joinSep [10] (cardData.map deckLine)
    let cardOrder := convertDeckListToCards resolve deckList
    if cardOrder.length = 0 then .error "No valid cards found in seed"
    else createDraftWithCards cardOrder packSize numberOfRounds

def goodEntry (e : CardData) : Prop :=
  e.name ≠ [] ∧
  (∀ h, e.name.head? = some h → jsIsSpace h = false) ∧
  (∀ h, e.name.getLast? = some h → jsIsSpace h = false) ∧
  (∀ c ∈ e.name, c < 256 ∧ isLineTerm c = false)

def goodEntryB (e : CardData) : Bool :=
  (!e.name.isEmpty) &&
  (match e.name.head? with | some h => !jsIsSpace h | none => true) &&
  (match e.name.getLast? with | some h => !jsIsSpace h | none => true) &&
  e.name.all (fun c => decide (c < 256) && !isLineTerm c)

def cardBolt : Card :=
  { id := ofString "b1", name := ofString "Bolt", color_identity := [strR] }

def cardGiant : Card :=
  { id := ofString "g1", name := ofString "Giant Growth", color_identity := [strG] }

def rsv : JStr → Option Card := fun n =>
  if n = ofString "Bolt" then some cardBolt
  else if n = ofString "Giant Growth" then some cardGiant
  else none

def entriesW : List CardData :=
  [{ name := ofString "Bolt", quantity := 2 }, { name := ofString "Giant Growth", quantity := 1 }]

def seedW : JStr :=
  (hashCardOrder [{ card := cardBolt, quantity := 2 }, { card := cardGiant, quantity := 1 }]).getD []

/-! ## Theorems -/

theorem pushToBucket_count (p : Picks) (k : JStr) (c : CardInPool) :
    picksCount (pushToBucket p k c) = picksCount p + 1 := by
  induction p with
  | nil => simp [pushToBucket, picksCount]
  | cons e rest ih =>
    by_cases hk : e.1 = k
    · simp [pushToBucket, hk, picksCount]; omega
    · simp only [pushToBucket, if_neg hk, picksCount, List.map_cons, List.sum_cons]
      simp only [picksCount] at ih
      omega

theorem addCard_count (p : Picks) (c : CardInPool) :
    picksCount (addCardToPlayerPicks p c) = picksCount p + 1 :=
  pushToBucket_count p _ c

theorem foldl_addCard_count (cs : List CardInPool) (p : Picks) :
    picksCount (cs.foldl addCardToPlayerPicks p) = picksCount p + cs.length := by
  induction cs generalizing p with
  | nil => simp
  | cons c rest ih => simp [List.foldl_cons, ih, addCard_count]; omega

theorem pushToBucket_id_iff (p : Picks) (k : JStr) (c : CardInPool) (cid : JStr) :
    idInPicks (pushToBucket p k c) cid ↔ idInPicks p cid ∨ c.card.id = cid := by
  induction p with
  | nil => simp [pushToBucket, idInPicks]
  | cons e rest ih =>
    by_cases hk : e.1 = k
    · simp only [pushToBucket, if_pos hk, idInPicks, List.mem_cons, List.mem_append,
        List.mem_singleton]
      aesop
    · simp only [pushToBucket, if_neg hk, idInPicks, List.mem_cons]
      simp only [idInPicks] at ih
      aesop

theorem addCard_id_iff (p : Picks) (c : CardInPool) (cid : JStr) :
    idInPicks (addCardToPlayerPicks p c) cid ↔ idInPicks p cid ∨ c.card.id = cid :=
  pushToBucket_id_iff p _ c cid

theorem foldl_addCard_id_iff (cs : List CardInPool) (p : Picks) (cid : JStr) :
    idInPicks (cs.foldl addCardToPlayerPicks p) cid ↔
      idInPicks p cid ∨ ∃ c ∈ cs, c.card.id = cid := by
  induction cs generalizing p with
  | nil => simp
  | cons c rest ih =>
    simp only [List.foldl_cons, ih, addCard_id_iff, List.mem_cons]
    constructor
    · rintro ((h | h) | ⟨c', hc', hid⟩)
      · exact Or.inl h
      · exact Or.inr ⟨c, Or.inl rfl, h⟩
      · exact Or.inr ⟨c', Or.inr hc', hid⟩
    · rintro (h | ⟨c', hc' | hc', hid⟩)
      · exact Or.inl (Or.inl h)
      · subst hc'; exact Or.inl (Or.inr hid)
      · exact Or.inr ⟨c', hc', hid⟩

theorem startRound_fixed_fields (d : DraftState) :
    (startRound d).currentPhase = d.currentPhase
    ∧ (startRound d).currentRound = d.currentRound
    ∧ (startRound d).currentPack = d.currentPack
    ∧ (startRound d).p1Picks = d.p1Picks
    ∧ (startRound d).p2Picks = d.p2Picks
    ∧ (startRound d).settings = d.settings := by
  unfold startRound; split <;> exact ⟨rfl, rfl, rfl, rfl, rfl, rfl⟩

theorem startRound_short (d : DraftState)
    (h : d.cardsInPool.length < d.settings.packSize) :
    startRound d = { d with isComplete := true } := by
  unfold startRound; rw [if_pos h]

theorem startRound_deal (d : DraftState)
    (h : ¬ d.cardsInPool.length < d.settings.packSize) :
    (startRound d).cardsInPool = d.cardsInPool.drop d.settings.packSize
    ∧ (startRound d).isComplete = d.isComplete
    ∧ packDealtCount (startRound d).history = packDealtCount d.history + 1 := by
  unfold startRound; rw [if_neg h]
  refine ⟨rfl, rfl, ?_⟩
  simp [packDealtCount, createHistoryEntry]

/-! ## Success-shape extraction lemmas -/

theorem splitPack_ok_fields {d : DraftState} {data : SplitData} {s : DraftState}
    (h : splitPack d data = .ok s) :
    s.currentPhase = (if d.currentPhase = .P1split then Phase.P2choose else Phase.P1choose)
    ∧ s.currentRound = d.currentRound
    ∧ s.currentPack = d.currentPack
    ∧ s.isComplete = d.isComplete
    ∧ s.cardsInPool = d.cardsInPool
    ∧ s.settings = d.settings
    ∧ s.p1Picks = d.p1Picks
    ∧ s.p2Picks = d.p2Picks
    ∧ packDealtCount s.history = packDealtCount d.history := by
  rcases data with ⟨piles⟩
  rcases hap : d.activePack with _ | pack
  · simp [splitPack, hap] at h
  · rcases piles with _ | ⟨p0, _ | ⟨p1, _ | ⟨p2, rest⟩⟩⟩
    · simp [splitPack, hap] at h
    · simp [splitPack, hap] at h
    · simp only [splitPack, hap] at h
      split at h
      · exact absurd h (by simp)
      · split at h
        · exact absurd h (by simp)
        · injection h with hs; subst hs
          refine ⟨rfl, rfl, rfl, rfl, rfl, rfl, rfl, rfl, ?_⟩
          simp [packDealtCount, createHistoryEntry]
    · simp [splitPack, hap] at h

theorem choosePile_eq (d : DraftState) (pack : Pack) (piles : List Pile)
    (data : ChooseData) (chosen other : Pile)
    (hap : d.activePack = some pack) (hp : pack.piles = some piles)
    (hf1 : piles.find? (fun pile => decide (pile.id = data.pileId)) = some chosen)
    (hf2 : piles.find? (fun pile => decide (pile.id ≠ data.pileId)) = some other) :
    choosePile d data =
      .ok (if d.isComplete = false then startRound (afterChoice d data chosen other)
           else afterChoice d data chosen other) := by
  simp only [choosePile, hap, hp, hf1, hf2, afterChoice]
  split <;> rfl

theorem choosePile_ok_fields {d : DraftState} {data : ChooseData} {s : DraftState}
    (h : choosePile d data = .ok s) :
    s.currentPhase = (if d.currentPack = 1 then Phase.P2split else Phase.P1split)
    ∧ s.currentPack = (if d.currentPack = 1 then 2 else 1)
    ∧ s.currentRound = (if d.currentPack = 1 then d.currentRound else d.currentRound + 1)
    ∧ s.settings = d.settings
    ∧ (d.isComplete = true → s.isComplete = true ∧ s.cardsInPool = d.cardsInPool
        ∧ packDealtCount s.history = packDealtCount d.history)
    ∧ (s.isComplete = true → d.isComplete = true ∨ d.cardsInPool.length < d.settings.packSize) := by
  rcases hap : d.activePack with _ | pack
  · simp [choosePile, hap] at h
  · rcases hp : pack.piles with _ | piles
    · simp [choosePile, hap, hp] at h
    · rcases hf1 : piles.find? (fun pile => decide (pile.id = data.pileId)) with _ | chosen
      · simp [choosePile, hap, hp, hf1] at h
      · rcases hf2 : piles.find? (fun pile => decide (pile.id ≠ data.pileId)) with _ | other
        · simp only [choosePile, hap, hp, hf1, hf2] at h
          exact Except.noConfusion h
        · rw [choosePile_eq d pack piles data chosen other hap hp hf1 hf2] at h
          injection h with hs
          by_cases hic : d.isComplete = false
          · rw [if_pos hic] at hs
            subst hs
            refine ⟨?_, ?_, ?_, ?_, ?_, ?_⟩
            · rw [(startRound_fixed_fields _).1]; rfl
            · rw [(startRound_fixed_fields _).2.2.1]; rfl
            · rw [(startRound_fixed_fields _).2.1]; rfl
            · rw [(startRound_fixed_fields _).2.2.2.2.2]; rfl
            · intro hd; rw [hd] at hic; exact Bool.noConfusion hic
            · intro hs'
              by_cases hshort : d.cardsInPool.length < d.settings.packSize
              · exact Or.inr hshort
              · exfalso
                have hdeal :=
                  (startRound_deal (afterChoice d data chosen other) hshort).2.1
                rw [hdeal] at hs'
                have hfalse : d.isComplete = true := hs'
                rw [hfalse] at hic
                exact Bool.noConfusion hic
          · rw [if_neg hic] at hs
            subst hs
            have hcmp' : d.isComplete = true := by simpa using hic
            refine ⟨rfl, rfl, rfl, rfl, ?_, ?_⟩
            · intro _
              refine ⟨hcmp', rfl, ?_⟩
              simp [afterChoice, packDealtCount, createHistoryEntry]
            · intro _; exact Or.inl hcmp'

/-! ## C2: split validation -/

/-- C2 (amended): with a dealt active pack, `splitPack` rejects exactly
the pile inputs whose pile count is not two, whose total card count
differs from the pack, or with an empty pile; pile membership (omission
or duplication of pack cards) is not inspected.  No branch writes the
input state. -/
theorem splitPack_rejects_iff (d : DraftState) (pack : Pack)
    (hap : d.activePack = some pack) :
    (∀ piles : List Pile, piles.length ≠ 2 →
        ∃ e, splitPack d ⟨piles⟩ = .error e)
    ∧ (∀ p0 p1 : Pile,
        (∃ e, splitPack d ⟨[p0, p1]⟩ = .error e) ↔
          (p0.cards.length + p1.cards.length ≠ pack.cards.length ∨
           p0.cards.length = 0 ∨ p1.cards.length = 0))
    ∧ (∀ data : SplitData, splitPackObservedPrior d data = d) := by
  refine ⟨?_, ?_, fun _ => rfl⟩
  · intro piles hlen
    rcases piles with _ | ⟨p0, _ | ⟨p1, _ | ⟨p2, rest⟩⟩⟩
    · exact ⟨"Invalid pack split data", by simp [splitPack, hap]⟩
    · exact ⟨"Invalid pack split data", by simp [splitPack, hap]⟩
    · simp at hlen
    · exact ⟨"Invalid pack split data", by simp [splitPack, hap]⟩
  · intro p0 p1
    by_cases hA : p0.cards.length + p1.cards.length ≠ pack.cards.length
    · simp [splitPack, hap, hA]
    · by_cases hB : p0.cards = [] ∨ p1.cards = []
      · simp [splitPack, hap, hA, hB]
      · simp [splitPack, hap, hA, hB]

/-- Witness for `splitPack_rejects_iff` at the concrete state
`stSplit`: an empty second pile is rejected. -/
theorem splitPack_rejects_iff_witness :
    ∃ e, splitPack stSplit ⟨[pileAB, pileEmpty]⟩ = .error e :=
  ((splitPack_rejects_iff stSplit packAB rfl).2.1 pileAB pileEmpty).mpr (by decide)

/-- Counterexample to C2 as stated: at `stSplit` (active pack holds
cards A and B) the pile pair A / A duplicates card A and omits card B,
yet `splitPack` accepts it, because only the total count is checked. -/
theorem splitPack_accepts_duplicated_pile :
    ∃ s', splitPack stSplit ⟨[pileA, pileA2]⟩ = .ok s' := ⟨_, rfl⟩

/-! ## C5: phase guard on splitPack -/

/-- C5 (amended): `splitPack` checks only that an active pack exists
and that exactly two count-valid nonempty piles are supplied.  It never
inspects `currentPhase` nor whether the pack already has piles, so in
any phase, and on an already split pack, a shape-valid split succeeds
and overwrites the attached piles. -/
theorem splitPack_ignores_phase_and_existing_piles
    (d : DraftState) (pack : Pack) (p0 p1 : Pile)
    (hap : d.activePack = some pack)
    (htot : p0.cards.length + p1.cards.length = pack.cards.length)
    (h0 : p0.cards.length ≠ 0) (h1 : p1.cards.length ≠ 0) :
    ∃ s', splitPack d ⟨[p0, p1]⟩ = .ok s' ∧
      s'.activePack = some { pack with piles := some [p0, p1] } := by
  have h2 : ¬(p0.cards = [] ∨ p1.cards = []) := by
    rintro (hh | hh)
    · exact h0 (by simp [hh])
    · exact h1 (by simp [hh])
  refine ⟨{ d with
      currentPhase := if d.currentPhase = .P1split then Phase.P2choose else Phase.P1choose
      activePack := some { pack with piles := some [p0, p1] }
      history := d.history ++
        [createHistoryEntry .packSplit d.currentRound d.currentPhase
          (.packSplitData [p0, p1]
            (if d.currentPhase = .P1split then strP1 else strP2))] }, ?_, rfl⟩
  simp [splitPack, hap, htot, h2]

/-- Witness for `splitPack_ignores_phase_and_existing_piles` at the
already split pack of `stChoose`, a choose-phase state. -/
theorem splitPack_ignores_phase_witness :
    ∃ s', splitPack stChoose ⟨[pileA, pileB]⟩ = .ok s' ∧
      s'.activePack = some { packABSplit with piles := some [pileA, pileB] } :=
  splitPack_ignores_phase_and_existing_piles stChoose packABSplit pileA pileB
    rfl (by decide) (by decide) (by decide)

/-- Counterexample to C5 as stated: in the choose phase `P2-choose`,
on a pack that already has piles attached, `splitPack` succeeds instead
of failing. -/
theorem splitPack_wrong_phase_accepted :
    stChoose.currentPhase = .P2choose ∧
    (∃ piles, stChoose.activePack = some { packABSplit with piles := some piles } ∧ piles ≠ []) ∧
    ∃ s', splitPack stChoose ⟨[pileA, pileB]⟩ = .ok s' :=
  ⟨rfl, ⟨[pileA, pileB], by decide, by decide⟩, ⟨_, rfl⟩⟩

/-- C10 (amended): on cards whose color identity only uses the five
color letters, bucket resolution is total onto the seven fixed buckets:
empty goes to colorless, a singleton to its single color, more than one
color to multicolor.  Without that restriction the singleton case
returns the raw string unchecked. -/
theorem bucket_resolution_total_on_wubrg (card : Card)
    (h : ∀ c ∈ card.color_identity, c ∈ [strW, strU, strB, strR, strG]) :
    (card.color_identity = [] → getCardColorIdentity card = strC)
    ∧ (∀ c, card.color_identity = [c] → getCardColorIdentity card = c)
    ∧ (2 ≤ card.color_identity.length → getCardColorIdentity card = strM)
    ∧ getCardColorIdentity card ∈ bucketKeys := by
  rcases hci : card.color_identity with _ | ⟨c, _ | ⟨c2, rest⟩⟩
  · refine ⟨fun _ => by simp [getCardColorIdentity, hci], ?_, ?_, ?_⟩
    · intro c hc; simp at hc
    · intro hlen; simp at hlen
    · simp only [getCardColorIdentity, hci]; decide
  · refine ⟨?_, ?_, ?_, ?_⟩
    · intro hnil; simp at hnil
    · intro c' hc'
      simp only [List.cons.injEq] at hc'
      simp [getCardColorIdentity, hci, hc'.1]
    · intro hlen; simp at hlen
    · have hc : c ∈ card.color_identity := by rw [hci]; exact List.mem_singleton_self c
      have hmem := h c hc
      simp only [getCardColorIdentity, hci]
      simp only [List.mem_cons, List.not_mem_nil, or_false] at hmem
      rcases hmem with h' | h' | h' | h' | h' <;> subst h' <;> decide
  · refine ⟨?_, ?_, ?_, ?_⟩
    · intro hnil; simp at hnil
    · intro c' hc'; simp at hc'
    · intro _; simp [getCardColorIdentity, hci]
    · simp only [getCardColorIdentity, hci]; decide

/-- Witness for `bucket_resolution_total_on_wubrg` at the multicolor
card `cardC`. -/
theorem bucket_resolution_witness :
    getCardColorIdentity cardC = strM ∧ getCardColorIdentity cardC ∈ bucketKeys :=
  ⟨(bucket_resolution_total_on_wubrg cardC (by decide)).2.2.1 (by decide),
   (bucket_resolution_total_on_wubrg cardC (by decide)).2.2.2⟩

/-- Counterexample to C10 as stated: the card `cardX` with color
identity X is filed under the dynamically created bucket X, outside
the seven fixed buckets. -/
theorem bucket_resolution_escapes_fixed_buckets :
    getCardColorIdentity cardX = ofString "X" ∧
    getCardColorIdentity cardX ∉ bucketKeys ∧
    (addCardToPlayerPicks initializePlayerPicks { card := cardX, quantity := 1 }).map Prod.fst
      = bucketKeys ++ [ofString "X"] := by decide

/-- C3 is violated by the code: after a successful deal the caller
observes the prior state with its pool array spliced (first pack
removed in place), and after a successful choose the prior state has
both pick records grown through the shared objects.  Evaluated at the
concrete states `stDeal` and `stChoose`. -/
theorem prior_state_mutated_by_deal_and_choose :
    startRoundObservedPrior stDeal ≠ stDeal
    ∧ (startRoundObservedPrior stDeal).cardsInPool = [cipB]
    ∧ choosePileObservedPrior stChoose ⟨ofString "pile-x"⟩ ≠ stChoose
    ∧ (choosePileObservedPrior stChoose ⟨ofString "pile-x"⟩).p2Picks ≠ stChoose.p2Picks
    ∧ (choosePileObservedPrior stChoose ⟨ofString "pile-x"⟩).p1Picks ≠ stChoose.p1Picks := by
  decide

/-! ## C6: accounting of an accepted choose -/

/-- C6 (amended): EVERY accepted `choosePile` — whichever of the two
piles is named — credits the chosen pile (the first pile whose id
matches the request, as the source's `find?` selects it) to the
choosing seat and the other pile (the first with a different id) to the
opposite seat; the combined pick count grows by the total size of those
two piles, which equals `packSize` whenever the split preserved the
card count of a full pack; and a card that sits in at most one of the
two piles and in neither collection beforehand never ends up in both
collections.  Without the disjointness proviso a card duplicated across
both piles (which `splitPack` does not reject) is credited to both
seats. -/
theorem choosePile_accounting (d : DraftState) (data : ChooseData) (s : DraftState)
    (h : choosePile d data = .ok s) :
    ∃ pack piles chosen other,
      d.activePack = some pack ∧ pack.piles = some piles ∧
      piles.find? (fun pile => decide (pile.id = data.pileId)) = some chosen ∧
      piles.find? (fun pile => decide (pile.id ≠ data.pileId)) = some other ∧
      (d.currentPhase = .P1choose →
        s.p1Picks = chosen.cards.foldl addCardToPlayerPicks d.p1Picks ∧
        s.p2Picks = other.cards.foldl addCardToPlayerPicks d.p2Picks) ∧
      (d.currentPhase ≠ .P1choose →
        s.p2Picks = chosen.cards.foldl addCardToPlayerPicks d.p2Picks ∧
        s.p1Picks = other.cards.foldl addCardToPlayerPicks d.p1Picks) ∧
      picksCount s.p1Picks + picksCount s.p2Picks
        = picksCount d.p1Picks + picksCount d.p2Picks
          + (chosen.cards.length + other.cards.length) ∧
      (chosen.cards.length + other.cards.length = d.settings.packSize →
        picksCount s.p1Picks + picksCount s.p2Picks
          = picksCount d.p1Picks + picksCount d.p2Picks + d.settings.packSize) ∧
      (∀ cid : JStr, ¬(pileHasId chosen cid ∧ pileHasId other cid) →
        ¬ idInPicks d.p1Picks cid → ¬ idInPicks d.p2Picks cid →
        ¬(idInPicks s.p1Picks cid ∧ idInPicks s.p2Picks cid)) := by
  rcases hap : d.activePack with _ | pack
  · simp [choosePile, hap] at h
  · rcases hp : pack.piles with _ | piles
    · simp [choosePile, hap, hp] at h
    · rcases hf1 : piles.find? (fun pile => decide (pile.id = data.pileId)) with _ | chosen
      · simp [choosePile, hap, hp, hf1] at h
      · rcases hf2 : piles.find? (fun pile => decide (pile.id ≠ data.pileId)) with _ | other
        · simp only [choosePile, hap, hp, hf1, hf2] at h
          exact Except.noConfusion h
        · rw [choosePile_eq d pack piles data chosen other hap hp hf1 hf2] at h
          injection h with hs
          subst hs
          have hq1 : (if d.isComplete = false then startRound (afterChoice d data chosen other)
              else afterChoice d data chosen other).p1Picks
                = (afterChoice d data chosen other).p1Picks := by
            by_cases hic : d.isComplete = false
            · rw [if_pos hic, (startRound_fixed_fields _).2.2.2.1]
            · rw [if_neg hic]
          have hq2 : (if d.isComplete = false then startRound (afterChoice d data chosen other)
              else afterChoice d data chosen other).p2Picks
                = (afterChoice d data chosen other).p2Picks := by
            by_cases hic : d.isComplete = false
            · rw [if_pos hic, (startRound_fixed_fields _).2.2.2.2.1]
            · rw [if_neg hic]
          have hcount : picksCount (if d.isComplete = false
                then startRound (afterChoice d data chosen other)
                else afterChoice d data chosen other).p1Picks
              + picksCount (if d.isComplete = false
                then startRound (afterChoice d data chosen other)
                else afterChoice d data chosen other).p2Picks
              = picksCount d.p1Picks + picksCount d.p2Picks
                + (chosen.cards.length + other.cards.length) := by
            rw [hq1, hq2]
            by_cases hph : d.currentPhase = .P1choose <;>
              simp only [afterChoice, if_pos, if_neg, hph, if_true, if_false, ite_true,
                ite_false, reduceIte] <;>
              rw [foldl_addCard_count, foldl_addCard_count] <;> omega
          refine ⟨pack, piles, chosen, other, rfl, hp, hf1, hf2, ?_, ?_, hcount, ?_, ?_⟩
          · intro hph
            rw [hq1, hq2]
            constructor <;> simp [afterChoice, hph]
          · intro hph
            rw [hq1, hq2]
            constructor <;> simp [afterChoice, hph]
          · intro hsz
            rw [hcount, hsz]
          · intro cid hdup h1 h2 hboth
            rw [hq1] at hboth
            rw [hq2] at hboth
            rcases hboth with ⟨hb1, hb2⟩
            by_cases hph : d.currentPhase = .P1choose <;>
              simp only [afterChoice, hph, ite_true, ite_false, reduceIte, if_true,
                if_false] at hb1 hb2 <;>
              rw [foldl_addCard_id_iff] at hb1 hb2 <;>
              exact hdup ⟨by tauto, by tauto⟩

/-- Witness for `choosePile_accounting` at the split pack of
`stChoose`, choosing the SECOND pile (`pile-y`): the source's `find?`
selects `pileB` as chosen and `pileA` as other, each seat is credited
accordingly, and the combined pick count grows by the pack size. -/
theorem choosePile_accounting_witness :
    ∃ pack piles chosen other,
      stChoose.activePack = some pack ∧ pack.piles = some piles ∧
      piles.find? (fun pile => decide (pile.id = chooseY.pileId)) = some chosen ∧
      piles.find? (fun pile => decide (pile.id ≠ chooseY.pileId)) = some other ∧
      (stChoose.currentPhase = .P1choose →
        resChooseY.p1Picks = chosen.cards.foldl addCardToPlayerPicks stChoose.p1Picks ∧
        resChooseY.p2Picks = other.cards.foldl addCardToPlayerPicks stChoose.p2Picks) ∧
      (stChoose.currentPhase ≠ .P1choose →
        resChooseY.p2Picks = chosen.cards.foldl addCardToPlayerPicks stChoose.p2Picks ∧
        resChooseY.p1Picks = other.cards.foldl addCardToPlayerPicks stChoose.p1Picks) ∧
      picksCount resChooseY.p1Picks + picksCount resChooseY.p2Picks
        = picksCount stChoose.p1Picks + picksCount stChoose.p2Picks
          + (chosen.cards.length + other.cards.length) ∧
      (chosen.cards.length + other.cards.length = stChoose.settings.packSize →
        picksCount resChooseY.p1Picks + picksCount resChooseY.p2Picks
          = picksCount stChoose.p1Picks + picksCount stChoose.p2Picks
            + stChoose.settings.packSize) ∧
      (∀ cid : JStr, ¬(pileHasId chosen cid ∧ pileHasId other cid) →
        ¬ idInPicks stChoose.p1Picks cid → ¬ idInPicks stChoose.p2Picks cid →
        ¬(idInPicks resChooseY.p1Picks cid ∧ idInPicks resChooseY.p2Picks cid)) :=
  choosePile_accounting stChoose chooseY resChooseY rfl

/-- Counterexample to C6 as stated: after the accepted choose on the
duplicated piles, card A sits in both seats pick records. -/
theorem choosePile_card_in_both_seats :
    ∃ r, choosePile stChooseDup ⟨ofString "pile-x"⟩ = .ok r ∧
      idInPicks r.p1Picks (ofString "idA") ∧ idInPicks r.p2Picks (ofString "idA") :=
  ⟨_, rfl, by decide, by decide⟩

/-! ## C7: the phase cycle of one full round -/

/-- C7: along one full accepted round starting at pack 1 in `P1-split`,
the phases are visited in the order `P1-split, P2-choose, P2-split,
P1-choose`, and the round counter is unchanged until the choose that
completes pack 2, which increments it exactly once. -/
theorem phase_cycle_one_round (s0 s1 s2 s3 s4 : DraftState)
    (d1 d2 : SplitData) (c1 c2 : ChooseData)
    (hphase : s0.currentPhase = .P1split) (hpack : s0.currentPack = 1)
    (h1 : splitPack s0 d1 = .ok s1) (h2 : choosePile s1 c1 = .ok s2)
    (h3 : splitPack s2 d2 = .ok s3) (h4 : choosePile s3 c2 = .ok s4) :
    s1.currentPhase = .P2choose ∧ s1.currentPack = 1 ∧ s1.currentRound = s0.currentRound ∧
    s2.currentPhase = .P2split ∧ s2.currentPack = 2 ∧ s2.currentRound = s0.currentRound ∧
    s3.currentPhase = .P1choose ∧ s3.currentPack = 2 ∧ s3.currentRound = s0.currentRound ∧
    s4.currentPhase = .P1split ∧ s4.currentPack = 1 ∧
    s4.currentRound = s0.currentRound + 1 := by
  obtain ⟨e1ph, e1rd, e1pk, -⟩ := splitPack_ok_fields h1
  obtain ⟨e2ph, e2pk, e2rd, -⟩ := choosePile_ok_fields h2
  have hs1ph : s1.currentPhase = .P2choose := by rw [e1ph, if_pos hphase]
  have hs1pk : s1.currentPack = 1 := by rw [e1pk, hpack]
  have hs1rd : s1.currentRound = s0.currentRound := e1rd
  have hs2ph : s2.currentPhase = .P2split := by rw [e2ph, if_pos hs1pk]
  have hs2pk : s2.currentPack = 2 := by rw [e2pk, if_pos hs1pk]
  have hs2rd : s2.currentRound = s0.currentRound := by
    rw [e2rd, if_pos hs1pk, hs1rd]
  obtain ⟨e3ph, e3rd, e3pk, -⟩ := splitPack_ok_fields h3
  obtain ⟨e4ph, e4pk, e4rd, -⟩ := choosePile_ok_fields h4
  have hs3ph : s3.currentPhase = .P1choose := by
    rw [e3ph, if_neg]
    rw [hs2ph]
    exact fun hh => Phase.noConfusion hh
  have hs3pk : s3.currentPack = 2 := by rw [e3pk, hs2pk]
  have hs3rd : s3.currentRound = s0.currentRound := by rw [e3rd, hs2rd]
  have hpk2 : ¬ s3.currentPack = 1 := by rw [hs3pk]; omega
  have hs4ph : s4.currentPhase = .P1split := by rw [e4ph, if_neg hpk2]
  have hs4pk : s4.currentPack = 1 := by rw [e4pk, if_neg hpk2]
  have hs4rd : s4.currentRound = s0.currentRound + 1 := by
    rw [e4rd, if_neg hpk2, hs3rd]
  exact ⟨hs1ph, hs1pk, hs1rd, hs2ph, hs2pk, hs2rd, hs3ph, hs3pk, hs3rd,
    hs4ph, hs4pk, hs4rd⟩

/-- Witness for `phase_cycle_one_round`: the concrete round played from
`stSplit` takes all four accepted steps and follows the cycle. -/
theorem phase_cycle_one_round_witness :
    splitPack stSplit ⟨[pileA, pileB]⟩ = .ok w1
    ∧ choosePile w1 ⟨ofString "pile-x"⟩ = .ok w2
    ∧ splitPack w2 ⟨[pileC, pileD]⟩ = .ok w3
    ∧ choosePile w3 ⟨ofString "pile-c"⟩ = .ok w4
    ∧ (w1.currentPhase = .P2choose ∧ w1.currentPack = 1 ∧ w1.currentRound = 1 ∧
       w2.currentPhase = .P2split ∧ w2.currentPack = 2 ∧ w2.currentRound = 1 ∧
       w3.currentPhase = .P1choose ∧ w3.currentPack = 2 ∧ w3.currentRound = 1 ∧
       w4.currentPhase = .P1split ∧ w4.currentPack = 1 ∧ w4.currentRound = 2) :=
  ⟨rfl, rfl, rfl, rfl,
   phase_cycle_one_round stSplit w1 w2 w3 w4
     ⟨[pileA, pileB]⟩ ⟨[pileC, pileD]⟩ ⟨ofString "pile-x"⟩ ⟨ofString "pile-c"⟩
     rfl rfl rfl rfl rfl rfl⟩

theorem choosePile_complete_short {d : DraftState} {data : ChooseData} {s : DraftState}
    (h : choosePile d data = .ok s) :
    s.isComplete = true →
      d.isComplete = true ∨
      (s.cardsInPool = d.cardsInPool ∧ d.cardsInPool.length < d.settings.packSize) := by
  rcases hap : d.activePack with _ | pack
  · simp [choosePile, hap] at h
  · rcases hp : pack.piles with _ | piles
    · simp [choosePile, hap, hp] at h
    · rcases hf1 : piles.find? (fun pile => decide (pile.id = data.pileId)) with _ | chosen
      · simp [choosePile, hap, hp, hf1] at h
      · rcases hf2 : piles.find? (fun pile => decide (pile.id ≠ data.pileId)) with _ | other
        · simp only [choosePile, hap, hp, hf1, hf2] at h
          exact Except.noConfusion h
        · rw [choosePile_eq d pack piles data chosen other hap hp hf1 hf2] at h
          injection h with hs
          by_cases hic : d.isComplete = false
          · rw [if_pos hic] at hs
            subst hs
            intro hs'
            by_cases hshort : d.cardsInPool.length < d.settings.packSize
            · refine Or.inr ⟨?_, hshort⟩
              rw [startRound_short (afterChoice d data chosen other) hshort]
              rfl
            · exfalso
              have hdeal := (startRound_deal (afterChoice d data chosen other) hshort).2.1
              rw [hdeal] at hs'
              have hfalse : d.isComplete = true := hs'
              rw [hfalse] at hic
              exact Bool.noConfusion hic
          · rw [if_neg hic] at hs
            subst hs
            intro _
            exact Or.inl (by simpa using hic)

theorem step_preserves_completeShort {d d' : DraftState} {a : ActionInput}
    (hinv : completeShort d) (h : performDraftAction d a = .ok d') :
    completeShort d' := by
  cases a with
  | startRoundAct =>
    injection h with hd'
    subst hd'
    intro hs'
    by_cases hshort : d.cardsInPool.length < d.settings.packSize
    · rw [startRound_short d hshort]
      exact hshort
    · exfalso
      have hdeal := (startRound_deal d hshort).2.1
      rw [hdeal] at hs'
      exact hshort (hinv hs')
  | splitPackAct data =>
    obtain ⟨-, -, -, hic, hpool, hset, -⟩ := splitPack_ok_fields h
    intro hs'
    rw [hpool, hset]
    exact hinv (by rw [← hic]; exact hs')
  | choosePileAct data =>
    intro hs'
    obtain ⟨-, -, -, hset, hcmpl, -⟩ := choosePile_ok_fields h
    rcases choosePile_complete_short h hs' with hd | ⟨hpool, hshort⟩
    · obtain ⟨-, hpool, -⟩ := hcmpl hd
      rw [hpool, hset]
      exact hinv hd
    · rw [hpool, hset]
      exact hshort

theorem reachable_completeShort {s0 d : DraftState}
    (h0 : s0.isComplete = false) (hr : ReachableFrom s0 d) :
    completeShort d := by
  induction hr with
  | refl => intro hs'; rw [h0] at hs'; exact Bool.noConfusion hs'
  | step a _ hstep ih => exact step_preserves_completeShort ih hstep

/-- C8: from any start state that is not complete, every reachable
state satisfies: completion implies the pool is short; a deal attempted
on a short pool marks the draft complete while dealing nothing; and
once complete, every accepted action keeps the flag true, never touches
the pool and never appends another pack-dealt entry — completion can
only arise from a deal attempt on a short pool. -/
theorem isComplete_lifecycle (s0 d : DraftState) (h0 : s0.isComplete = false)
    (hr : ReachableFrom s0 d) :
    (d.isComplete = true → d.cardsInPool.length < d.settings.packSize)
    ∧ (d.cardsInPool.length < d.settings.packSize →
        performDraftAction d .startRoundAct = .ok { d with isComplete := true })
    ∧ (∀ a d', performDraftAction d a = .ok d' →
        (d.isComplete = true →
          d'.isComplete = true ∧ d'.cardsInPool = d.cardsInPool
          ∧ packDealtCount d'.history = packDealtCount d.history)
        ∧ (d.isComplete = false → d'.isComplete = true →
            d.cardsInPool.length < d.settings.packSize)) := by
  have hinv := reachable_completeShort h0 hr
  refine ⟨hinv, ?_, ?_⟩
  · intro hshort
    show Except.ok (startRound d) = _
    rw [startRound_short d hshort]
  · intro a d' h
    constructor
    · intro hd
      have hshort := hinv hd
      cases a with
      | startRoundAct =>
        injection h with hd'
        subst hd'
        rw [startRound_short d hshort]
        exact ⟨rfl, rfl, rfl⟩
      | splitPackAct data =>
        obtain ⟨-, -, -, hic, hpool, -, -, -, hcount⟩ := splitPack_ok_fields h
        exact ⟨by rw [hic, hd], hpool, hcount⟩
      | choosePileAct data =>
        obtain ⟨-, -, -, -, hcmpl, -⟩ := choosePile_ok_fields h
        exact hcmpl hd
    · intro hd hd'
      cases a with
      | startRoundAct =>
        injection h with he
        subst he
        by_cases hshort : d.cardsInPool.length < d.settings.packSize
        · exact hshort
        · exfalso
          have hdeal := (startRound_deal d hshort).2.1
          rw [hdeal, hd] at hd'
          exact Bool.noConfusion hd'
      | splitPackAct data =>
        obtain ⟨-, -, -, hic, -, -, -, -, -⟩ := splitPack_ok_fields h
        rw [hic, hd] at hd'
        exact Bool.noConfusion hd'
      | choosePileAct data =>
        obtain ⟨-, -, -, -, -, hsc⟩ := choosePile_ok_fields h
        rcases hsc hd' with hcontra | hshort
        · rw [hd] at hcontra; exact Bool.noConfusion hcontra
        · exact hshort

/-- Witness for `isComplete_lifecycle` on the concrete two-step
execution from `stEmptyPool`. -/
theorem isComplete_lifecycle_witness :
    stCompleted.cardsInPool.length < stCompleted.settings.packSize
    ∧ performDraftAction stCompleted .startRoundAct
        = .ok { stCompleted with isComplete := true }
    ∧ (stCompleted.isComplete = true
        ∧ stCompleted.cardsInPool = stCompleted.cardsInPool
        ∧ packDealtCount stCompleted.history = packDealtCount stCompleted.history) := by
  have main := isComplete_lifecycle stEmptyPool stCompleted rfl
    (ReachableFrom.step .startRoundAct (ReachableFrom.refl stEmptyPool) rfl)
  exact ⟨main.1 rfl, main.2.1 (main.1 rfl),
    (main.2.2 .startRoundAct stCompleted rfl).1 rfl⟩

/-! ## Codec lemmas: numbers, hex, literals, xor, base64 -/

theorem digsToNat_append (ds : List Nat) (c : Nat) :
    digsToNat (ds ++ [c]) = 10 * digsToNat ds + (c - 48) := by
  simp [digsToNat, List.foldl_append]

theorem natDigsAux_val : ∀ fuel n, n ≤ fuel → digsToNat (natDigsAux fuel n) = n := by
  intro fuel
  induction fuel with
  | zero =>
    intro n h
    have h0 : n = 0 := by omega
    subst h0
    rfl
  | succ f ih =>
    intro n h
    by_cases h0 : n = 0
    · subst h0; rfl
    · simp only [natDigsAux, if_neg h0]
      rw [digsToNat_append, ih (n / 10) (by omega)]
      omega

theorem digsToNat_natRepr (n : Nat) : digsToNat (natRepr n) = n := by
  unfold natRepr
  by_cases h0 : n = 0
  · subst h0; rfl
  · rw [if_neg h0]
    exact natDigsAux_val n n le_rfl

theorem natDigsAux_mem : ∀ fuel n c, c ∈ natDigsAux fuel n → 48 ≤ c ∧ c ≤ 57 := by
  intro fuel
  induction fuel with
  | zero => intro n c hc; simp [natDigsAux] at hc
  | succ f ih =>
    intro n c hc
    by_cases h0 : n = 0
    · subst h0; simp [natDigsAux] at hc
    · simp only [natDigsAux, if_neg h0, List.mem_append, List.mem_singleton] at hc
      rcases hc with hc | hc
      · exact ih _ _ hc
      · subst hc; omega

theorem natRepr_mem (n c : Nat) (h : c ∈ natRepr n) : 48 ≤ c ∧ c ≤ 57 := by
  unfold natRepr at h
  by_cases h0 : n = 0
  · rw [if_pos h0] at h; simp at h; omega
  · rw [if_neg h0] at h; exact natDigsAux_mem n n c h

theorem natRepr_ne_nil (n : Nat) : natRepr n ≠ [] := by
  unfold natRepr
  by_cases h0 : n = 0
  · rw [if_pos h0]; simp
  · rw [if_neg h0]
    unfold natDigs
    rcases hn : n with _ | m
    · exact absurd hn h0
    · simp [natDigsAux, h0, ← hn]

theorem hexVal_hexDig (v : Nat) (h : v < 16) : hexVal (hexDig v) = some v := by
  have hall : ∀ w, w < 16 → hexVal (hexDig w) = some w := by decide
  exact hall v h

theorem expects_append (pat rest : JStr) : expects pat (pat ++ rest) = some rest := by
  induction pat with
  | nil => rfl
  | cons p ps ih => simp [expects, ih]

theorem xorWithKey_involution (key : List Nat) :
    ∀ i s, xorWithKey key i (xorWithKey key i s) = s := by
  intro i s
  induction s generalizing i with
  | nil => rfl
  | cons c rest ih =>
    simp only [xorWithKey, Nat.xor_cancel_right, List.cons.injEq]
    exact ⟨trivial, ih (i + 1)⟩

theorem xorWithKey_lt (key : List Nat) (hk : ∀ j, key.getD j 0 < 256) :
    ∀ i s, (∀ c ∈ s, c < 256) → ∀ x ∈ xorWithKey key i s, x < 256 := by
  intro i s
  induction s generalizing i with
  | nil => intro _ x hx; simp [xorWithKey] at hx
  | cons c rest ih =>
    intro hs x hx
    simp only [xorWithKey, List.mem_cons] at hx
    rcases hx with hx | hx
    · subst hx
      have h1 : c < 2 ^ 8 := by
        have := hs c (by simp)
        omega
      have h2 : key.getD (i % key.length) 0 < 2 ^ 8 := by
        have := hk (i % key.length)
        omega
      have := Nat.xor_lt_two_pow h1 h2
      omega
    · exact ih (i + 1) (fun y hy => hs y (by simp [hy])) x hx

theorem HASH_KEY_getD_lt (j : Nat) : HASH_KEY.getD j 0 < 256 := by
  by_cases hj : j < 19
  · have hall : ∀ j', j' < 19 → HASH_KEY.getD j' 0 < 256 := by decide
    exact hall j hj
  · rw [List.getD_eq_default]
    · omega
    · have hlen : HASH_KEY.length = 19 := by decide
      omega

theorem xorEncrypt_involution (text : JStr) :
    xorEncrypt (xorEncrypt text HASH_KEY) HASH_KEY = text :=
  xorWithKey_involution HASH_KEY 0 text

theorem b64val_b64chr (v : Nat) (h : v < 64) : b64val (b64chr v) = some v := by
  have hall : ∀ w, w < 64 → b64val (b64chr w) = some w := by decide
  exact hall v h

theorem b64chr_ne_61 (v : Nat) (h : v < 64) : b64chr v ≠ 61 := by
  have hall : ∀ w, w < 64 → b64chr w ≠ 61 := by decide
  exact hall v h

theorem b64_roundtrip :
    ∀ bs : List Nat, (∀ c ∈ bs, c < 256) →
      b64decodeChars (b64encodeBytes bs) = some bs
  | [], _ => rfl
  | [a], h => by
    have ha : a < 256 := h a (by simp)
    simp only [b64encodeBytes, b64decodeChars,
      b64val_b64chr _ (show a / 4 < 64 by omega),
      b64val_b64chr _ (show (a % 4) * 16 < 64 by omega),
      Option.bind_eq_bind, Option.some_bind]
    simp
    omega
  | [a, b], h => by
    have ha : a < 256 := h a (by simp)
    have hb : b < 256 := h b (by simp)
    simp only [b64encodeBytes, b64decodeChars,
      b64val_b64chr _ (show a / 4 < 64 by omega),
      b64val_b64chr _ (show (a % 4) * 16 + b / 16 < 64 by omega),
      b64val_b64chr _ (show (b % 16) * 4 < 64 by omega),
      Option.bind_eq_bind, Option.some_bind]
    rw [if_neg (b64chr_ne_61 _ (show (b % 16) * 4 < 64 by omega))]
    simp
    omega
  | a :: b :: c :: rest, h => by
    have ha : a < 256 := h a (by simp)
    have hb : b < 256 := h b (by simp)
    have hc : c < 256 := h c (by simp)
    have ih := b64_roundtrip rest (fun x hx => h x (by simp [hx]))
    simp only [b64encodeBytes, b64decodeChars,
      b64val_b64chr _ (show a / 4 < 64 by omega),
      b64val_b64chr _ (show (a % 4) * 16 + b / 16 < 64 by omega),
      b64val_b64chr _ (show (b % 16) * 4 + c / 64 < 64 by omega),
      b64val_b64chr _ (show c % 64 < 64 by omega),
      Option.bind_eq_bind, Option.some_bind, ih]
    rw [if_neg (b64chr_ne_61 _ (show (b % 16) * 4 + c / 64 < 64 by omega))]
    rw [if_neg (b64chr_ne_61 _ (show c % 64 < 64 by omega))]
    simp
    omega

/-! ## Codec lemmas: parse of print -/

theorem escChar_ne_nil (c : Nat) : escChar c ≠ [] := by
  unfold escChar
  split_ifs <;> simp

theorem escStr_length_ge (s : JStr) : s.length ≤ (escStr s).length := by
  induction s with
  | nil => simp [escStr]
  | cons c cs ih =>
    have h1 : 1 ≤ (escChar c).length := by
      have := escChar_ne_nil c
      cases hesc : escChar c
      · exact absurd hesc this
      · simp
    simp only [escStr, List.map_cons, List.flatten_cons, List.length_append, List.length_cons]
    simp only [escStr] at ih
    omega

theorem parseJString_escStr (s : JStr) :
    ∀ (fuel : Nat), s.length < fuel → ∀ rest : JStr,
      parseJString fuel (escStr s ++ 34 :: rest) = some (s, rest) := by
  induction s with
  | nil =>
    intro fuel hf rest
    cases fuel with
    | zero => omega
    | succ fuel => simp [escStr, parseJString]
  | cons c cs ih =>
    intro fuel hf rest
    cases fuel with
    | zero => omega
    | succ fuel =>
      have hcs : cs.length < fuel := by
        have h2 : (c :: cs).length = cs.length + 1 := List.length_cons c cs
        omega
      have hesc : escStr (c :: cs) ++ 34 :: rest = escChar c ++ (escStr cs ++ 34 :: rest) := by
        simp [escStr]
      rw [hesc]
      by_cases h34 : c = 34
      · subst h34
        simp [escChar, parseJString, unescape, ih fuel hcs rest]
      · by_cases h92 : c = 92
        · subst h92
          simp [escChar, parseJString, unescape, ih fuel hcs rest]
        · by_cases h8 : c = 8
          · subst h8; simp [escChar, parseJString, unescape, ih fuel hcs rest]
          · by_cases h9 : c = 9
            · subst h9; simp [escChar, parseJString, unescape, ih fuel hcs rest]
            · by_cases h10 : c = 10
              · subst h10; simp [escChar, parseJString, unescape, ih fuel hcs rest]
              · by_cases h12 : c = 12
                · subst h12; simp [escChar, parseJString, unescape, ih fuel hcs rest]
                · by_cases h13 : c = 13
                  · subst h13; simp [escChar, parseJString, unescape, ih fuel hcs rest]
                  · by_cases h32 : c < 32
                    · simp only [escChar, if_neg h34, if_neg h92, if_neg h8, if_neg h9,
                        if_neg h10, if_neg h12, if_neg h13, if_pos h32]
                      simp [parseJString, take4hex,
                        (show hexVal 48 = some 0 by rfl),
                        hexVal_hexDig _ (show c / 16 < 16 by omega),
                        hexVal_hexDig _ (show c % 16 < 16 by omega),
                        ih fuel hcs rest]
                      omega
                    · simp only [escChar, if_neg h34, if_neg h92, if_neg h8, if_neg h9,
                        if_neg h10, if_neg h12, if_neg h13, if_neg h32]
                      simp [parseJString, h34, h92, h32, ih fuel hcs rest]

theorem span_digits (ds : List Nat) (hds : ∀ c ∈ ds, isDigitCode c = true)
    (c : Nat) (hc : isDigitCode c = false) (rest : JStr) :
    (ds ++ c :: rest).takeWhile isDigitCode = ds ∧
    (ds ++ c :: rest).dropWhile isDigitCode = c :: rest := by
  induction ds with
  | nil => simp [List.takeWhile_cons, List.dropWhile_cons, hc]
  | cons d t ih =>
    have hd : isDigitCode d = true := hds d (by simp)
    have iht := ih (fun x hx => hds x (by simp [hx]))
    simp [List.takeWhile_cons, List.dropWhile_cons, hd, iht.1, iht.2]

theorem parseNumber_print (q : Nat) (c : Nat) (hc : isDigitCode c = false) (rest : JStr) :
    parseNumber (natRepr q ++ c :: rest) = some (q, c :: rest) := by
  have hdigs : ∀ x ∈ natRepr q, isDigitCode x = true := by
    intro x hx
    have := natRepr_mem q x hx
    simp [isDigitCode]
    omega
  have hspan := span_digits (natRepr q) hdigs c hc rest
  unfold parseNumber
  rw [hspan.1, hspan.2, if_neg (natRepr_ne_nil q), digsToNat_natRepr]

theorem parseItem_print (cd : CardData) (rest : JStr) :
    parseItem (stringifyItem cd ++ rest) = some (cd, rest) := by
  have hshape : stringifyItem cd ++ rest =
      [123, 34, 110, 97, 109, 101, 34, 58, 34] ++
        (escStr cd.name ++ 34 :: ([44, 34, 113, 117, 97, 110, 116, 105, 116, 121, 34, 58] ++
          (natRepr cd.quantity ++ 125 :: rest))) := by
    simp [stringifyItem, quoteStr]
  rw [parseItem, hshape, expects_append]
  have hfuel : cd.name.length <
      (escStr cd.name ++ 34 :: ([44, 34, 113, 117, 97, 110, 116, 105, 116, 121, 34, 58] ++
        (natRepr cd.quantity ++ 125 :: rest))).length + 1 := by
    have := escStr_length_ge cd.name
    simp only [List.length_append, List.length_cons]
    omega
  simp only [Option.bind_eq_bind, Option.some_bind]
  rw [parseJString_escStr cd.name _ hfuel]
  simp only [Option.some_bind]
  rw [expects_append]
  simp only [Option.some_bind]
  rw [parseNumber_print cd.quantity 125 (by decide) rest]
  simp only [Option.some_bind]
  simp [expects]

theorem joinSep_length_ge (l : List CardData) :
    l.length ≤ (joinSep [44] (l.map stringifyItem)).length := by
  induction l with
  | nil => simp [joinSep]
  | cons a t ih =>
    cases t with
    | nil => simp [joinSep, stringifyItem]
    | cons b t2 =>
      simp only [List.map_cons, joinSep, List.length_append, List.length_cons] at ih ⊢
      have hlen : 1 ≤ (stringifyItem a).length := by simp [stringifyItem]
      omega

theorem parseItems_print (l : List CardData) (hne : l ≠ []) :
    ∀ (fuel : Nat), l.length ≤ fuel → ∀ rest : JStr,
      parseItems fuel (joinSep [44] (l.map stringifyItem) ++ 93 :: rest) = some (l, rest) := by
  induction l with
  | nil => exact absurd rfl hne
  | cons a t ih =>
    intro fuel hf rest
    cases fuel with
    | zero => simp at hf
    | succ fuel =>
      cases t with
      | nil =>
        simp only [List.map_cons, List.map_nil, joinSep]
        rw [parseItems, parseItem_print a (93 :: rest)]
        simp
      | cons b t2 =>
        have hlen : (b :: t2).length ≤ fuel := by
          simp only [List.length_cons] at hf ⊢
          omega
        have hjoin : joinSep [44] ((a :: b :: t2).map stringifyItem) ++ 93 :: rest =
            stringifyItem a ++ (44 :: (joinSep [44] ((b :: t2).map stringifyItem) ++ 93 :: rest)) := by
          simp [joinSep]
        rw [hjoin, parseItems, parseItem_print a _]
        have iht := ih (by simp) fuel hlen rest
        simp only [List.map_cons] at iht ⊢
        simp [iht]

theorem parseCardList_print (l : List CardData) :
    parseCardList (stringifyCardData l) = some l := by
  cases l with
  | nil => rfl
  | cons a t =>
    have hne : ¬ (joinSep [44] ((a :: t).map stringifyItem) ++ 93 :: [] = [93]) := by
      cases t with
      | nil => simp [joinSep, stringifyItem]
      | cons b t2 => simp [joinSep, stringifyItem]
    have hshape : stringifyCardData (a :: t) =
        91 :: (joinSep [44] ((a :: t).map stringifyItem) ++ 93 :: []) := by
      simp [stringifyCardData]
    rw [hshape, parseCardList]
    simp only [if_pos rfl]
    rw [if_neg hne]
    have hfuel : (a :: t).length ≤ (joinSep [44] ((a :: t).map stringifyItem) ++ 93 :: []).length + 1 := by
      have h1 := joinSep_length_ge (a :: t)
      simp only [List.length_cons] at h1 ⊢
      simp only [List.length_append, List.length_cons, List.length_nil]
      omega
    rw [parseItems_print (a :: t) (by simp) _ hfuel []]
    simp

/-! ## Character ranges and the full codec composition -/

theorem escChar_lt (c : Nat) (h : c < 256) : ∀ x ∈ escChar c, x < 256 := by
  intro x hx
  unfold escChar at hx
  split_ifs at hx <;> fin_cases hx <;>
    first
    | omega
    | (unfold hexDig; split_ifs <;> omega)

theorem escStr_lt (s : JStr) (h : ∀ c ∈ s, c < 256) : ∀ x ∈ escStr s, x < 256 := by
  intro x hx
  simp only [escStr, List.mem_flatten, List.mem_map] at hx
  obtain ⟨l, ⟨c, hc, hl⟩, hxl⟩ := hx
  subst hl
  exact escChar_lt c (h c hc) x hxl

theorem mem_append5 {x : Nat} {l1 l2 l3 l4 l5 : List Nat}
    (hx : x ∈ l1 ++ (l2 ++ (l3 ++ (l4 ++ l5)))) :
    x ∈ l1 ∨ x ∈ l2 ∨ x ∈ l3 ∨ x ∈ l4 ∨ x ∈ l5 := by
  simp only [List.mem_append] at hx
  tauto

theorem stringifyItem_lt (cd : CardData) (h : ∀ c ∈ cd.name, c < 256) :
    ∀ x ∈ stringifyItem cd, x < 256 := by
  intro x hx
  have hsplit : stringifyItem cd =
      [123, 34, 110, 97, 109, 101, 34, 58, 34] ++
        (escStr cd.name ++
          ([34, 44, 34, 113, 117, 97, 110, 116, 105, 116, 121, 34, 58] ++
            (natRepr cd.quantity ++ [125]))) := by
    simp [stringifyItem, quoteStr]
  rw [hsplit] at hx
  rcases mem_append5 hx with hx | hx | hx | hx | hx
  · fin_cases hx <;> omega
  · exact escStr_lt cd.name h x hx
  · fin_cases hx <;> omega
  · have := natRepr_mem cd.quantity x hx; omega
  · fin_cases hx <;> omega

theorem joinSep_mem (sep : JStr) (l : List JStr) (x : Nat)
    (hx : x ∈ joinSep sep l) : x ∈ sep ∨ ∃ s ∈ l, x ∈ s := by
  induction l with
  | nil => simp [joinSep] at hx
  | cons a t ih =>
    cases t with
    | nil => exact Or.inr ⟨a, by simp, by simpa [joinSep] using hx⟩
    | cons b t2 =>
      simp only [joinSep, List.mem_append] at hx
      rcases hx with (hx | hx) | hx
      · exact Or.inr ⟨a, by simp, hx⟩
      · exact Or.inl hx
      · rcases ih hx with hs | ⟨s, hs, hxs⟩
        · exact Or.inl hs
        · exact Or.inr ⟨s, List.mem_cons_of_mem a hs, hxs⟩

theorem stringify_lt (l : List CardData) (h : ∀ cd ∈ l, ∀ c ∈ cd.name, c < 256) :
    ∀ x ∈ stringifyCardData l, x < 256 := by
  intro x hx
  have hsplit : stringifyCardData l =
      [91] ++ (joinSep [44] (l.map stringifyItem) ++ [93]) := by
    simp [stringifyCardData]
  rw [hsplit] at hx
  rcases List.mem_append.mp hx with hx | hx
  · fin_cases hx <;> omega
  · rcases List.mem_append.mp hx with hx | hx
    · rcases joinSep_mem [44] _ x hx with hsep | ⟨s, hs, hxs⟩
      · simp at hsep; omega
      · obtain ⟨cd, hcd, rfl⟩ := List.mem_map.mp hs
        exact stringifyItem_lt cd (h cd hcd) x hxs
    · fin_cases hx <;> omega

theorem hash_some_dehash (order : List CardInPool) (seed : JStr)
    (h : hashCardOrder order = some seed) :
    dehashCardOrder seed = some (order.map toCardData) := by
  simp only [hashCardOrder, btoa] at h
  split_ifs at h with hall
  · injection h with hseed
    subst hseed
    have hlt : ∀ c ∈ xorEncrypt (stringifyCardData (order.map toCardData)) HASH_KEY, c < 256 := by
      intro c hc
      have := List.all_eq_true.mp hall c hc
      simpa using this
    unfold dehashCardOrder atob
    rw [b64_roundtrip _ hlt]
    show parseCardList
        (xorEncrypt (xorEncrypt (stringifyCardData (order.map toCardData)) HASH_KEY) HASH_KEY)
      = some (order.map toCardData)
    rw [xorEncrypt_involution]
    exact parseCardList_print _

theorem hashCardOrder_some (order : List CardInPool)
    (h : ∀ c ∈ order, ∀ ch ∈ c.card.name, ch < 256) :
    ∃ seed, hashCardOrder order = some seed := by
  have hnames : ∀ cd ∈ order.map toCardData, ∀ c ∈ cd.name, c < 256 := by
    intro cd hcd c hc
    simp only [List.mem_map] at hcd
    obtain ⟨cip, hcip, heq⟩ := hcd
    subst heq
    exact h cip hcip c hc
  have hds := stringify_lt (order.map toCardData) hnames
  have hobf : ∀ x ∈ xorEncrypt (stringifyCardData (order.map toCardData)) HASH_KEY, x < 256 :=
    xorWithKey_lt HASH_KEY HASH_KEY_getD_lt 0 _ hds
  refine ⟨b64encodeBytes (xorEncrypt (stringifyCardData (order.map toCardData)) HASH_KEY), ?_⟩
  simp only [hashCardOrder, btoa]
  rw [if_pos]
  exact List.all_eq_true.mpr (fun c hc => by simpa using hobf c hc)

/-- C1 (amended): for every ordered list of pool entries whose names
use only code units below 256 (all ASCII punctuation and Latin-1
letters included), encoding succeeds and decoding the produced seed
returns exactly the encoded ordered name/quantity list.  For a name
with a code unit at or above 256 the encoder itself throws, because
btoa rejects such characters. -/
theorem seed_roundtrip (order : List CardInPool)
    (h : ∀ c ∈ order, ∀ ch ∈ c.card.name, ch < 256) :
    ∃ seed, hashCardOrder order = some seed ∧
      dehashCardOrder seed = some (order.map toCardData) := by
  obtain ⟨seed, hseed⟩ := hashCardOrder_some order h
  exact ⟨seed, hseed, hash_some_dehash order seed hseed⟩

/-- Witness for `seed_roundtrip` on a two-card list whose names hold
punctuation, escapes and a Latin-1 non-ASCII letter. -/
theorem seed_roundtrip_witness :
    ∃ seed, hashCardOrder [{ card := cardFancy, quantity := 3 }] = some seed ∧
      dehashCardOrder seed = some [{ name := cardFancy.name, quantity := 3 }] :=
  seed_roundtrip [{ card := cardFancy, quantity := 3 }] (by decide)

/-- Counterexample to C1 as stated: on a list whose single name is the
em-dash (a non-ASCII character), the encoder throws instead of
producing a seed, so no round trip exists. -/
theorem seed_encoding_fails_on_non_latin1 :
    hashCardOrder [{ card := cardDash, quantity := 1 }] = none ∧
    ¬∃ seed, hashCardOrder [{ card := cardDash, quantity := 1 }] = some seed ∧
      dehashCardOrder seed = some [{ name := [8212], quantity := 1 }] := by
  refine ⟨by decide, ?_⟩
  rintro ⟨seed, hseed, -⟩
  rw [show hashCardOrder [{ card := cardDash, quantity := 1 }] = none by decide] at hseed
  exact Option.noConfusion hseed

/-- C4: every draft state createDraft returns stores in settings.seed a
seed that decodes to exactly the ordered name/quantity sequence of that
draft pool. -/
theorem createDraft_seed_decodes (shuffledCards : List CardInPool)
    (packSize numberOfRounds : Nat) (st : DraftState)
    (h : createDraft shuffledCards packSize numberOfRounds = .ok st) :
    dehashCardOrder st.settings.seed = some (st.cardsInPool.map toCardData) := by
  simp only [createDraft] at h
  split_ifs at h
  rcases hhash : hashCardOrder (shuffledCards.take (2 * packSize * numberOfRounds)) with
    _ | seed <;> rw [hhash] at h
  · exact Except.noConfusion h
  · injection h with hst
    subst hst
    exact hash_some_dehash _ seed hhash

/-- Witness for `createDraft_seed_decodes` at a concrete two-card
draft. -/
theorem createDraft_seed_decodes_witness :
    dehashCardOrder ((okOr (createDraft [cipA, cipB] 1 1) stDeal).settings.seed)
      = some (((okOr (createDraft [cipA, cipB] 1 1) stDeal).cardsInPool).map toCardData) :=
  createDraft_seed_decodes [cipA, cipB] 1 1 (okOr (createDraft [cipA, cipB] 1 1) stDeal) rfl

/-! ## Deck-list line round trip -/

theorem splitNl_ne_nil : ∀ s : JStr, splitNl s ≠ []
  | [] => by simp [splitNl]
  | c :: rest => by
    by_cases hc : c = 10
    · simp [splitNl, hc]
    · simp only [splitNl, if_neg hc]
      cases hs : splitNl rest <;> simp

theorem splitNl_append (a : JStr) (rest : JStr) (ha : ∀ c ∈ a, c ≠ 10) :
    splitNl (a ++ rest) =
      match splitNl rest with
      | [] => [a]
      | l :: ls => (a ++ l) :: ls := by
  induction a with
  | nil =>
    simp only [List.nil_append]
    rcases hs : splitNl rest with _ | ⟨l, ls⟩
    · exact absurd hs (splitNl_ne_nil rest)
    · simp
  | cons c cs iha =>
    have hc10 : c ≠ 10 := ha c (by simp)
    simp only [List.cons_append, splitNl, if_neg hc10, List.append_eq]
    rw [iha (fun x hx => ha x (by simp [hx]))]
    rcases hs : splitNl rest with _ | ⟨l, ls⟩ <;> simp

theorem splitNl_join (lines : List JStr) (hne : lines ≠ [])
    (h10 : ∀ l ∈ lines, ∀ c ∈ l, c ≠ 10) :
    splitNl (joinSep [10] lines) = lines := by
  induction lines with
  | nil => exact absurd rfl hne
  | cons a t ih =>
    cases t with
    | nil =>
      have hj : joinSep [10] [a] = a ++ [] := by simp [joinSep]
      rw [hj, splitNl_append a [] (h10 a (by simp))]
      simp [splitNl]
    | cons b t2 =>
      have hj : joinSep [10] (a :: b :: t2) = a ++ (10 :: joinSep [10] (b :: t2)) := by
        simp [joinSep]
      rw [hj, splitNl_append a _ (h10 a (by simp))]
      have iht := ih (by simp) (fun l hl => h10 l (by simp [hl]))
      simp only [splitNl, if_pos rfl, iht]
      simp

theorem dropWhile_eq_self_of_head {p : Nat → Bool} :
    ∀ s : JStr, (∀ h, s.head? = some h → p h = false) → s.dropWhile p = s
  | [], _ => rfl
  | c :: t, h => by
    have hc : p c = false := h c rfl
    simp [List.dropWhile_cons, hc]

theorem jsTrim_eq_self (s : JStr)
    (hh : ∀ h, s.head? = some h → jsIsSpace h = false)
    (hl : ∀ h, s.getLast? = some h → jsIsSpace h = false) : jsTrim s = s := by
  unfold jsTrim
  rw [dropWhile_eq_self_of_head s hh]
  rw [dropWhile_eq_self_of_head s.reverse (fun h hrev => hl h (by rwa [← List.head?_reverse]))]
  exact List.reverse_reverse s

theorem digit_not_space (c : Nat) (h : isDigitCode c = true) : jsIsSpace c = false := by
  simp [isDigitCode] at h
  simp [jsIsSpace]
  omega

theorem deckLine_dropWhile_front (cd : CardData) :
    (deckLine cd).dropWhile jsIsSpace = deckLine cd := by
  apply dropWhile_eq_self_of_head
  intro h hh
  unfold deckLine at hh
  rcases hrep : natRepr cd.quantity with _ | ⟨d, ds⟩
  · exact absurd hrep (natRepr_ne_nil cd.quantity)
  · rw [hrep] at hh
    simp only [List.cons_append, List.head?_cons, Option.some.injEq] at hh
    have hdig : isDigitCode d = true := by
      have := natRepr_mem cd.quantity d (by rw [hrep]; simp)
      simp [isDigitCode]
      omega
    rw [← hh]
    exact digit_not_space d hdig

theorem jsTrim_deckLine_ne_nil (cd : CardData) : jsTrim (deckLine cd) ≠ [] := by
  intro hcontra
  unfold jsTrim at hcontra
  rw [deckLine_dropWhile_front cd] at hcontra
  have h2 : (deckLine cd).reverse.dropWhile jsIsSpace = [] := by
    have := congrArg List.reverse hcontra
    simpa using this
  rw [List.dropWhile_eq_nil_iff] at h2
  rcases hrep : natRepr cd.quantity with _ | ⟨d, ds⟩
  · exact absurd hrep (natRepr_ne_nil cd.quantity)
  · have hdmem : d ∈ (deckLine cd).reverse := by
      simp only [List.mem_reverse]
      unfold deckLine
      rw [hrep]
      simp
    have hsp := h2 d hdmem
    have hdig := natRepr_mem cd.quantity d (by rw [hrep]; simp)
    have hns : jsIsSpace d = false := digit_not_space d (by simp [isDigitCode]; omega)
    rw [hns] at hsp
    exact Bool.noConfusion hsp

theorem parseLine_deckLine (cd : CardData) (hne : cd.name ≠ [])
    (hh : ∀ h, cd.name.head? = some h → jsIsSpace h = false)
    (hl : ∀ h, cd.name.getLast? = some h → jsIsSpace h = false)
    (hterm : ∀ c ∈ cd.name, isLineTerm c = false) :
    parseLine (deckLine cd) = some (cd.quantity, cd.name) := by
  have hdigs : ∀ x ∈ natRepr cd.quantity, isDigitCode x = true := by
    intro x hx
    have := natRepr_mem cd.quantity x hx
    simp [isDigitCode]; omega
  have hspan := span_digits (natRepr cd.quantity) hdigs 32 (by decide) cd.name
  unfold parseLine deckLine
  rw [hspan.1, hspan.2]
  have hsp : (32 :: cd.name).takeWhile jsIsSpace = 32 :: cd.name.takeWhile jsIsSpace := by
    simp [List.takeWhile_cons, (by decide : jsIsSpace 32 = true)]
  have hname_take : cd.name.takeWhile jsIsSpace = [] := by
    cases hn : cd.name with
    | nil => rfl
    | cons c t =>
      have hcf : jsIsSpace c = false := hh c (by simp [hn])
      simp [List.takeWhile_cons, hcf]
  have hdrop : (32 :: cd.name).dropWhile jsIsSpace = cd.name := by
    rw [List.dropWhile_cons]
    simp only [(by decide : jsIsSpace 32 = true), if_true]
    exact dropWhile_eq_self_of_head cd.name hh
  rw [hsp, hname_take, hdrop]
  have hany : cd.name.any isLineTerm = false := by
    rw [List.any_eq_false]
    intro x hx
    simp [hterm x hx]
  rw [if_neg]
  · rw [digsToNat_natRepr, jsTrim_eq_self cd.name hh hl]
  · push_neg
    refine ⟨natRepr_ne_nil cd.quantity, by simp, hne, by simp [hany]⟩

/-! ## Seeded reconstruction (C9) -/


theorem find_map_ne (m : List (JStr × Card)) (k : JStr) (v : Card) (k' : JStr)
    (hk : k' ≠ k) :
    List.find? (fun e => decide (e.1 = k'))
        (m.map (fun e => if e.1 = k then (k, v) else e))
      = m.find? (fun e => decide (e.1 = k')) := by
  induction m with
  | nil => rfl
  | cons e rest ih =>
    simp only [List.map_cons, List.find?_cons]
    by_cases he : e.1 = k
    · rw [if_pos he,
        show decide (((k, v) : JStr × Card).1 = k') = false from
          decide_eq_false (fun hh => hk hh.symm),
        show decide (e.1 = k') = false from
          decide_eq_false (by rw [he]; exact fun hh => hk hh.symm)]
      exact ih
    · rw [if_neg he]
      cases hd : decide (e.1 = k') with
      | false => exact ih
      | true => rfl

theorem find_map_eq (m : List (JStr × Card)) (k : JStr) (v : Card)
    (hany : m.any (fun e => decide (e.1 = k)) = true) :
    List.find? (fun e => decide (e.1 = k))
        (m.map (fun e => if e.1 = k then (k, v) else e)) = some (k, v) := by
  induction m with
  | nil => simp at hany
  | cons e rest ih =>
    simp only [List.map_cons, List.find?_cons]
    by_cases he : e.1 = k
    · simp [if_pos he]
    · rw [if_neg he, decide_eq_false he]
      apply ih
      simp only [List.any_cons, Bool.or_eq_true] at hany
      rcases hany with hh | hh
      · exact absurd (by simpa using hh) he
      · exact hh

theorem find_append_none (m l2 : List (JStr × Card)) (p : JStr × Card → Bool) :
    m.find? p = none → (m ++ l2).find? p = l2.find? p := by
  induction m with
  | nil => intro _; rfl
  | cons e rest ih =>
    intro hm
    have hpe : ¬ p e = true := by
      intro hpe
      rw [List.find?_cons_of_pos _ hpe] at hm
      exact Option.noConfusion hm
    rw [List.cons_append, List.find?_cons_of_neg _ hpe]
    apply ih
    rw [List.find?_cons_of_neg _ hpe] at hm
    exact hm

theorem find_append_some (m l2 : List (JStr × Card)) (p : JStr × Card → Bool)
    (e : JStr × Card) :
    m.find? p = some e → (m ++ l2).find? p = some e := by
  induction m with
  | nil => intro hm; exact Option.noConfusion hm
  | cons a rest ih =>
    intro hm
    by_cases ha : p a = true
    · rw [List.find?_cons_of_pos _ ha] at hm
      rw [List.cons_append, List.find?_cons_of_pos _ ha]
      exact hm
    · rw [List.find?_cons_of_neg _ ha] at hm
      rw [List.cons_append, List.find?_cons_of_neg _ ha]
      exact ih hm

theorem mapGet_mapInsert (m : List (JStr × Card)) (k : JStr) (v : Card) (k' : JStr) :
    mapGet (mapInsert m k v) k' = if k' = k then some v else mapGet m k' := by
  unfold mapInsert mapGet
  by_cases hk : k' = k
  · subst hk
    rw [if_pos rfl]
    by_cases hany : m.any (fun e => decide (e.1 = k')) = true
    · rw [if_pos hany, find_map_eq m k' v hany]
      rfl
    · rw [if_neg hany]
      have hnone : m.find? (fun e => decide (e.1 = k')) = none := by
        rw [List.find?_eq_none]
        intro e he
        simp only [List.any_eq_true] at hany
        push_neg at hany
        simpa using hany e he
      rw [find_append_none m _ _ hnone]
      simp [List.find?]
  · rw [if_neg hk]
    by_cases hany : m.any (fun e => decide (e.1 = k)) = true
    · rw [if_pos hany, find_map_ne m k v k' hk]
    · rw [if_neg hany]
      cases hfind : m.find? (fun e => decide (e.1 = k')) with
      | some e => rw [find_append_some m _ _ e hfind]
      | none =>
        rw [find_append_none m _ _ hfind]
        simp [List.find?, Ne.symm hk]

theorem cardMapOf_aux (k : JStr) (c : Card) (hck : c.name = k) :
    ∀ (cards : List Card) (m : List (JStr × Card)),
      (∀ c' ∈ cards, c'.name = k → c' = c) →
      (mapGet m k = some c ∨ (mapGet m k = none ∧ c ∈ cards)) →
      mapGet (cards.foldl (fun m c => mapInsert m c.name c) m) k = some c := by
  intro cards
  induction cards with
  | nil =>
    intro m _ hstate
    rcases hstate with h | ⟨_, h⟩
    · exact h
    · exact absurd h (List.not_mem_nil c)
  | cons d rest ih =>
    intro m huniq hstate
    simp only [List.foldl_cons]
    apply ih (mapInsert m d.name d)
    · intro c' hc' hc'k
      exact huniq c' (List.mem_cons_of_mem d hc') hc'k
    · by_cases hd : d.name = k
      · have hdc : d = c := huniq d (List.mem_cons_self d rest) hd
        left
        rw [mapGet_mapInsert, if_pos hd.symm, hdc]
      · have hne : ¬ k = d.name := fun hh => hd hh.symm
        rcases hstate with h | ⟨hnone, hmem⟩
        · left
          rw [mapGet_mapInsert, if_neg hne]
          exact h
        · right
          refine ⟨?_, ?_⟩
          · rw [mapGet_mapInsert, if_neg hne]
            exact hnone
          · rcases List.mem_cons.mp hmem with hcd | hcr
            · exact absurd (hcd ▸ hck) hd
            · exact hcr

theorem cardMapOf_get (cards : List Card) (k : JStr) (c : Card)
    (hc : c ∈ cards) (hck : c.name = k)
    (huniq : ∀ c' ∈ cards, c'.name = k → c' = c) :
    mapGet (cardMapOf cards) k = some c := by
  unfold cardMapOf
  apply cardMapOf_aux k c hck cards [] huniq
  right
  exact ⟨rfl, hc⟩

theorem lookupCard_of_get (m : List (JStr × Card)) (name : JStr) (c : Card)
    (h : mapGet m name = some c) : lookupCard m name = some c := by
  unfold lookupCard
  rw [h]

theorem deckLine_no_newline (e : CardData)
    (h4 : ∀ c ∈ e.name, isLineTerm c = false) :
    ∀ c ∈ deckLine e, c ≠ 10 := by
  intro c hc
  unfold deckLine at hc
  rcases List.mem_append.mp hc with hdig | hrest
  · have := natRepr_mem e.quantity c hdig
    omega
  · rcases List.mem_cons.mp hrest with h32 | hname
    · omega
    · have hterm := h4 c hname
      intro hc10
      subst hc10
      simp [isLineTerm] at hterm

theorem filterMap_parseLine (entries : List CardData)
    (hgood : ∀ e ∈ entries, goodEntry e) :
    (entries.map deckLine).filterMap parseLine
      = entries.map (fun e => (e.quantity, e.name)) := by
  induction entries with
  | nil => rfl
  | cons e rest ih =>
    obtain ⟨h1, h2, h3, h4⟩ := hgood e (List.mem_cons_self e rest)
    have hp : parseLine (deckLine e) = some (e.quantity, e.name) :=
      parseLine_deckLine e h1 h2 h3 (fun c hc => (h4 c hc).2)
    simp only [List.map_cons, List.filterMap_cons, hp]
    rw [ih (fun e2 he2 => hgood e2 (List.mem_cons_of_mem e he2))]

theorem filter_deckLines (entries : List CardData) :
    (entries.map deckLine).filter (fun l => !(jsTrim l).isEmpty)
      = entries.map deckLine := by
  rw [List.filter_eq_self]
  intro l hl
  simp only [List.mem_map] at hl
  obtain ⟨e, _, heq⟩ := hl
  subst heq
  cases hemp : (jsTrim (deckLine e)).isEmpty with
  | false => rfl
  | true => exact absurd (List.isEmpty_iff.mp hemp) (jsTrim_deckLine_ne_nil e)

theorem lookup_resolved (resolve : JStr → Option Card) (entries : List CardData)
    (hres : ∀ e ∈ entries, ∃ c, resolve e.name = some c ∧ c.name = e.name)
    (e : CardData) (he : e ∈ entries) (c : Card)
    (hc : resolve e.name = some c) (hcn : c.name = e.name) :
    lookupCard (cardMapOf ((entries.map (fun e => e.name)).filterMap resolve)) e.name
      = some c := by
  apply lookupCard_of_get
  apply cardMapOf_get _ e.name c ?_ hcn ?_
  · rw [List.mem_filterMap]
    exact ⟨e.name, List.mem_map_of_mem _ he, hc⟩
  · intro c2 hc2 hc2k
    rw [List.mem_filterMap] at hc2
    obtain ⟨n, hn, hrn⟩ := hc2
    rw [List.mem_map] at hn
    obtain ⟨e2, he2, hne2⟩ := hn
    subst hne2
    obtain ⟨c3, hc3, hc3n⟩ := hres e2 he2
    rw [hc3] at hrn
    injection hrn with hcc
    subst hcc
    have hkey : e2.name = e.name := by rw [← hc3n, hc2k]
    rw [hkey] at hc3
    rw [hc3] at hc
    injection hc with h

theorem filterMap_lookup (cm : List (JStr × Card)) (es : List (Nat × JStr))
    (h : ∀ p ∈ es, ∃ c, lookupCard cm p.2 = some c ∧ c.name = p.2) :
    ((es.filterMap (fun e =>
        match lookupCard cm e.2 with
        | some card => some ({ card := card, quantity := e.1 } : CardInPool)
        | none => none)).map toCardData
      = es.map (fun p => ({ name := p.2, quantity := p.1 } : CardData)))
    ∧ (es.filterMap (fun e =>
        match lookupCard cm e.2 with
        | some card => some ({ card := card, quantity := e.1 } : CardInPool)
        | none => none)).length = es.length := by
  induction es with
  | nil => exact ⟨rfl, rfl⟩
  | cons p rest ih =>
    obtain ⟨c, hcl, hcn⟩ := h p (List.mem_cons_self p rest)
    obtain ⟨ih1, ih2⟩ := ih (fun q hq => h q (List.mem_cons_of_mem p hq))
    constructor
    · simp [List.filterMap_cons, hcl, toCardData, hcn, ih1]
    · simp [List.filterMap_cons, hcl, ih2]

theorem map_snd_pairs (entries : List CardData) :
    List.map (fun (e : Nat × JStr) => e.2) (entries.map (fun e => (e.quantity, e.name)))
      = entries.map (fun e => e.name) := by
  induction entries with
  | nil => rfl
  | cons a t ih => simp only [List.map_cons, ih]

theorem map_cd_pairs (entries : List CardData) :
    List.map (fun (p : Nat × JStr) => ({ name := p.2, quantity := p.1 } : CardData))
        (entries.map (fun e => (e.quantity, e.name)))
      = entries.map (fun e => ({ name := e.name, quantity := e.quantity } : CardData)) := by
  induction entries with
  | nil => rfl
  | cons a t ih => simp only [List.map_cons, ih]

theorem convert_deckLines (resolve : JStr → Option Card) (entries : List CardData)
    (hne : entries ≠ [])
    (hgood : ∀ e ∈ entries, goodEntry e)
    (hres : ∀ e ∈ entries, ∃ c, resolve e.name = some c ∧ c.name = e.name) :
    (convertDeckListToCards resolve (joinSep [10] (entries.map deckLine))).map toCardData
        = entries.map (fun e => ({ name := e.name, quantity := e.quantity } : CardData))
      ∧ (convertDeckListToCards resolve (joinSep [10] (entries.map deckLine))).length
        = entries.length := by
  have hlines : splitNl (joinSep [10] (entries.map deckLine)) = entries.map deckLine :=
    splitNl_join _ (by intro hcontra; exact hne (List.map_eq_nil.mp hcontra))
      (by
        intro l hl c hc
        rw [List.mem_map] at hl
        obtain ⟨e, he, heq⟩ := hl
        subst heq
        exact deckLine_no_newline e (fun ch hch => ((hgood e he).2.2.2 ch hch).2) c hc)
  simp only [convertDeckListToCards]
  rw [hlines, filter_deckLines, filterMap_parseLine entries hgood, map_snd_pairs]
  have hlook : ∀ p ∈ entries.map (fun e => (e.quantity, e.name)),
      ∃ c, lookupCard (cardMapOf (List.filterMap resolve
          (entries.map (fun e => e.name)))) p.2 = some c ∧ c.name = p.2 := by
    intro p hp
    rw [List.mem_map] at hp
    obtain ⟨e, he, hpe⟩ := hp
    subst hpe
    obtain ⟨c, hc, hcn⟩ := hres e he
    exact ⟨c, lookup_resolved resolve entries hres e he c hc hcn, hcn⟩
  obtain ⟨hm1, hm2⟩ := filterMap_lookup _ _ hlook
  constructor
  · rw [hm1, map_cd_pairs]
  · rw [hm2, List.length_map]

theorem map_cd_eta (entries : List CardData) :
    entries.map (fun e => ({ name := e.name, quantity := e.quantity } : CardData))
      = entries := by
  induction entries with
  | nil => rfl
  | cons a t ih => rw [List.map_cons, ih]

theorem createDraftWithCards_ok (pool : List CardInPool)
    (packSize numberOfRounds : Nat)
    (hlen : 2 * packSize * numberOfRounds ≤ pool.length)
    (hchars : ∀ cip ∈ pool.take (2 * packSize * numberOfRounds),
      ∀ ch ∈ cip.card.name, ch < 256) :
    ∃ st, createDraftWithCards pool packSize numberOfRounds = .ok st ∧
      st.cardsInPool = pool.take (2 * packSize * numberOfRounds) := by
  obtain ⟨s, hs⟩ := hashCardOrder_some _ hchars
  simp only [createDraftWithCards]
  rw [if_neg (by omega), hs]
  exact ⟨_, rfl, rfl⟩

theorem goodEntryB_spec (e : CardData) (h : goodEntryB e = true) : goodEntry e := by
  unfold goodEntryB at h
  simp only [Bool.and_eq_true] at h
  obtain ⟨⟨⟨h1, h2⟩, h3⟩, h4⟩ := h
  refine ⟨?_, ?_, ?_, ?_⟩
  · intro hcontra
    rw [hcontra] at h1
    exact Bool.noConfusion h1
  · intro hh hhead
    rw [hhead] at h2
    simpa using h2
  · intro hh hlast
    rw [hlast] at h3
    simpa using h3
  · intro c hc
    rw [List.all_eq_true] at h4
    have := h4 c hc
    simpa using this

/-- C9: createSeededDraft replays the recorded permutation.  Whenever the
seed decodes to a nonempty entry list whose names survive the deck-list
round trip (nonempty, no surrounding whitespace, Latin-1, no line
terminators) and the catalog resolves every decoded name to a card
carrying exactly that name, createSeededDraft succeeds and its pool is
the first poolSize decoded entries in exactly the decoded order, with
the decoded names and quantities — no reshuffling or reordering. -/
theorem createSeededDraft_replays (resolve : JStr → Option Card) (seed : JStr)
    (packSize numberOfRounds : Nat) (entries : List CardData)
    (hdec : dehashCardOrder seed = some entries)
    (hne : entries ≠ [])
    (hgood : ∀ e ∈ entries, goodEntry e)
    (hres : ∀ e ∈ entries, ∃ c, resolve e.name = some c ∧ c.name = e.name)
    (hlen : 2 * packSize * numberOfRounds ≤ entries.length) :
    ∃ st, createSeededDraft resolve seed packSize numberOfRounds = .ok st ∧
      st.cardsInPool.map toCardData = entries.take (2 * packSize * numberOfRounds) ∧
      st.cardsInPool.length = 2 * packSize * numberOfRounds := by
  obtain ⟨hc1, hc2⟩ := convert_deckLines resolve entries hne hgood hres
  rw [map_cd_eta] at hc1
  simp only [createSeededDraft, hdec]
  rw [if_neg (by rw [hc2]; intro hc0; exact hne (List.length_eq_zero.mp hc0))]
  have hchars : ∀ cip ∈ (convertDeckListToCards resolve
        (joinSep [10] (entries.map deckLine))).take (2 * packSize * numberOfRounds),
      ∀ ch ∈ cip.card.name, ch < 256 := by
    intro cip hcip ch hch
    have hmem : cip ∈ convertDeckListToCards resolve (joinSep [10] (entries.map deckLine)) :=
      List.take_subset _ _ hcip
    have hmem2 : toCardData cip ∈ entries := by
      rw [← hc1]
      exact List.mem_map_of_mem toCardData hmem
    exact ((hgood (toCardData cip) hmem2).2.2.2 ch hch).1
  obtain ⟨st, hst, hpool⟩ := createDraftWithCards_ok _ packSize numberOfRounds
    (by rw [hc2]; exact hlen) hchars
  refine ⟨st, hst, ?_, ?_⟩
  · rw [hpool, List.map_take, hc1]
  · rw [hpool, List.length_take, hc2]
    omega

theorem createSeededDraft_replays_witness :
    ∃ st, createSeededDraft rsv seedW 1 1 = .ok st ∧
      st.cardsInPool.map toCardData = entriesW.take 2 ∧
      st.cardsInPool.length = 2 :=
  createSeededDraft_replays rsv seedW 1 1 entriesW
    (by decide)
    (by decide)
    (by
      intro e he
      apply goodEntryB_spec
      fin_cases he <;> decide)
    (by
      intro e he
      fin_cases he
      · exact ⟨cardBolt, by decide, by decide⟩
      · exact ⟨cardGiant, by decide, by decide⟩)
    (by decide)

end Solomon
